import Mathlib

/-!
Verification development for the portfolio backend (Express + Mongoose).

The definitions below are a shallow embedding of the JavaScript source:

* `src/controllers/testimonialController.js`
* `src/controllers/projectController.js`
* `src/controllers/authController.js`
* `src/models/Testimonial.js`
* `src/models/Project.js`

Query-string values are JavaScript values (`undefined`, strings, numbers);
arithmetic on them can produce `NaN`, which is modelled by `Option Int`
(`none` is `NaN`).  The numeric model covers integer-valued strings and
non-numeric strings, which are the inputs these handlers receive.
The MongoDB store itself is modelled as a Lean list of records; behavior
of the store on `NaN`, zero or negative skip and limit values is outside
the repository and is modelled as `none` at the handler level.

The `User` model (`src/models/User.js`) is not part of the sources; the
definitions that need it are modelled from the specification and marked
as such in their doc comments.
-/

/-! ## JavaScript value model -/

/-- A JavaScript value as it appears in `req.query` and `req.body`:
`undefined`, a string, or an (integer) number. -/
inductive JVal where
  | undef : JVal
  | str : String → JVal
  | num : Int → JVal
deriving DecidableEq, Repr

/-- JavaScript truthiness: `undefined` is falsy, `""` is falsy, `0` is falsy. -/
def JVal.truthy : JVal → Bool
  | .undef => false
  | .str s => s ≠ ""
  | .num n => n ≠ 0

/-- ES destructuring default `const \x7b x = d \x7d = o`: the default replaces
only `undefined`. -/
def JVal.withDefault (v d : JVal) : JVal :=
  match v with
  | .undef => d
  | v => v

/-- Drop leading whitespace characters. -/
def dropLeadingWS : List Char → List Char
  | [] => []
  | c :: cs => if c.isWhitespace then dropLeadingWS cs else c :: cs

/-- JS `String.prototype.trim`, on the character list representation. -/
def trimJS (s : String) : String :=
  ((dropLeadingWS ((dropLeadingWS s.toList).reverse)).reverse).asString

/-- Lower-case a string character-wise (sufficient for the ASCII patterns
the handlers receive). -/
def lowerJS (s : String) : List Char :=
  s.toList.map Char.toLower

/-- Maximal leading digit run of a character list. -/
def takeDigits : List Char → List Char
  | [] => []
  | c :: cs => if c.isDigit then c :: takeDigits cs else []

/-- Decimal value of a digit list. -/
def digitsToNat (ds : List Char) : Nat :=
  ds.foldl (fun acc c => acc * 10 + (c.toNat - '0'.toNat)) 0

/-- Split an optional leading sign, returning the sign and the rest. -/
def splitSign : List Char → Int × List Char
  | '-' :: cs => (-1, cs)
  | '+' :: cs => (1, cs)
  | cs => (1, cs)

/-- JavaScript `parseInt` on a string: trim, optional sign, maximal digit
prefix; `NaN` (`none`) when no digits follow. -/
def parseIntJS (s : String) : Option Int :=
  let p := splitSign (trimJS s).toList
  let ds := takeDigits p.2
  if ds.isEmpty then none else some (p.1 * digitsToNat ds)

/-- JavaScript `Number(string)` coercion, restricted to integer literals:
empty or whitespace is `0`; otherwise every character after the optional
sign must be a digit, else `NaN` (`none`). -/
def toNumberStr (s : String) : Option Int :=
  let t := trimJS s
  if t = "" then some 0
  else
    let p := splitSign t.toList
    if p.2.isEmpty || !(p.2.all Char.isDigit) then none
    else some (p.1 * digitsToNat p.2)

/-- Coercion of a `JVal` to a number, as done by `-` and `*`. -/
def JVal.toNumber : JVal → Option Int
  | .undef => none
  | .str s => toNumberStr s
  | .num n => some n

/-- `parseInt` applied to a `JVal` (JS stringifies the argument first). -/
def JVal.parseIntOf : JVal → Option Int
  | .undef => none
  | .str s => parseIntJS s
  | .num n => some n

/-- JS `String(v)` for the values of the model. -/
def JVal.asString : JVal → String
  | .undef => "undefined"
  | .str s => s
  | .num n => toString n

/-- JS subtraction with `NaN` propagation. -/
def jsSub (a b : Option Int) : Option Int :=
  match a, b with
  | some x, some y => some (x - y)
  | _, _ => none

/-- JS multiplication with `NaN` propagation. -/
def jsMul (a b : Option Int) : Option Int :=
  match a, b with
  | some x, some y => some (x * y)
  | _, _ => none

/-- JS `Math.ceil(a / b)` for natural `a` and positive natural `b`,
embedded through the exact rational quotient. -/
def ceilJS (a b : Nat) : Nat := (Int.ceil ((a : ℚ) / (b : ℚ))).toNat

/-- Contiguous-sublist test on character lists. -/
def charsContain (hay pat : List Char) : Bool :=
  match hay with
  | [] => pat.isEmpty
  | _ :: t => pat.isPrefixOf hay || charsContain t pat

/-- Case-insensitive substring test, the model of a case-insensitive
`$regex` filter applied with a literal pattern. -/
def ciContains (hay pat : String) : Bool :=
  charsContain (lowerJS hay) (lowerJS pat)

/-! ## Callers and roles -/

/-- The authenticated principal attached to a request (`req.user`). -/
structure ReqUser where
  id : Nat
  role : String
deriving DecidableEq, Repr

/-- The inline role check used by the controllers:
`req.user?.role === 'admin'` (and `!req.user || req.user.role !== 'admin'`
negated). -/
def isAdminUser : Option ReqUser → Bool
  | some u => u.role == "admin"
  | none => false

/-! ## Testimonial model (`src/models/Testimonial.js`) -/

/-- The `status` enum of the testimonial schema. -/
inductive TStatus where
  | pending : TStatus
  | approved : TStatus
  | rejected : TStatus
deriving DecidableEq, Repr

/-- The string stored for a testimonial status. -/
def TStatus.asString : TStatus → String
  | .pending => "pending"
  | .approved => "approved"
  | .rejected => "rejected"

/-- A testimonial document.  Timestamps are abstract ticks (`createdAt`,
`updatedAt` maintained by the schema `timestamps` option).  Optional URL
and reference fields that no handler logic reads are omitted. -/
structure Testimonial where
  id : Nat
  name : String
  position : String
  company : String
  message : String
  rating : Int
  featured : Bool
  status : TStatus
  verified : Bool
  createdAt : Nat
  updatedAt : Nat
deriving DecidableEq, Repr

/-- The request body of a testimonial creation, after the controller has
normalised `rating` with `parseInt`.  `featured`, `verified` and `status`
carry their schema defaults (`false`, `false`, `approved`) when absent. -/
structure TInput where
  name : String
  position : String
  company : String
  message : String
  rating : Int
  featured : Bool
  verified : Bool
  status : TStatus
deriving DecidableEq, Repr

/-- Schema validation run by `Testimonial.create` and `save`: required
name of 2 to 100 characters, position and company at most 100, required
message of 10 to 1000 characters, integer rating between 1 and 5.
Fields are trimmed by the schema before validation. -/
def validT (inp : TInput) : Bool :=
  2 ≤ (trimJS inp.name).length && (trimJS inp.name).length ≤ 100 &&
  (trimJS inp.position).length ≤ 100 &&
  (trimJS inp.company).length ≤ 100 &&
  10 ≤ (trimJS inp.message).length && (trimJS inp.message).length ≤ 1000 &&
  1 ≤ inp.rating && inp.rating ≤ 5

/-- The document built from a creation body, before the save middleware. -/
def mkDoc (inp : TInput) (id clk : Nat) : Testimonial :=
  { id := id
    name := trimJS inp.name
    position := trimJS inp.position
    company := trimJS inp.company
    message := trimJS inp.message
    rating := inp.rating
    featured := inp.featured
    status := inp.status
    verified := inp.verified
    createdAt := clk
    updatedAt := clk }

/-- `testimonialSchema.pre('save')`: auto-feature a new five-star verified
testimonial. -/
def preSaveT (isNew : Bool) (t : Testimonial) : Testimonial :=
  if isNew && t.rating == 5 && t.verified then { t with featured := true } else t

/-- Count of featured documents other than the given id, the
`countDocuments(\x7b featured: true, _id: \x7b $ne: doc._id \x7d \x7d)` of the
post-save middleware. -/
def countFeaturedExcept (recs : List Testimonial) (i : Nat) : Nat :=
  recs.countP (fun t => t.featured && t.id != i)

/-- Number of featured testimonials in the store. -/
def featuredCount (recs : List Testimonial) : Nat :=
  recs.countP (·.featured)

/-- `findOne(\x7b featured: true, _id: \x7b $ne: i \x7d \x7d).sort(\x7b updatedAt: 1 \x7d)`:
the earliest-stored candidate with minimal `updatedAt`. -/
def pickOldest : List Testimonial → Option Testimonial
  | [] => none
  | t :: ts => some (ts.foldl (fun m x => if x.updatedAt < m.updatedAt then x else m) t)

/-- The eviction step of the post-save middleware: clear `featured` on the
oldest featured testimonial other than `i` and save it (which also bumps
its `updatedAt`). -/
def unfeatureOldest (recs : List Testimonial) (i clk : Nat) : List Testimonial :=
  match pickOldest (recs.filter (fun t => t.featured && t.id != i)) with
  | none => recs
  | some old =>
      recs.map (fun t =>
        if t.id == old.id then { old with featured := false, updatedAt := clk } else t)

/-- `testimonialSchema.post('save')`: when the saved document is featured
and at least 10 other featured testimonials exist, evict the oldest. -/
def postSaveT (doc : Testimonial) (recs : List Testimonial) (clk : Nat) : List Testimonial :=
  if doc.featured && decide (10 ≤ countFeaturedExcept recs doc.id) then
    unfeatureOldest recs doc.id clk
  else recs

/-- The testimonial store with the id and clock sources. -/
structure TDB where
  recs : List Testimonial
  nextId : Nat
  clock : Nat
deriving DecidableEq, Repr

/-- The empty store. -/
def emptyTDB : TDB := { recs := [], nextId := 0, clock := 0 }

/-- `Testimonial.create` as called by `createTestimonial`: build the
document, run schema validation, run the pre-save and post-save
middleware.  Invalid input raises a validation error and leaves the store
unchanged. -/
def createT (inp : TInput) (db : TDB) : TDB :=
  if validT inp then
    let doc := preSaveT true (mkDoc inp db.nextId db.clock)
    let recs1 := db.recs ++ [doc]
    { recs := postSaveT doc recs1 (db.clock + 1)
      nextId := db.nextId + 1
      clock := db.clock + 2 }
  else db

/-- `document.save()` on an existing document: bump `updatedAt`, write the
document back by id, then run the post-save middleware.  The pre-save
auto-feature branch is vacuous because `isNew` is false. -/
def saveT (recs : List Testimonial) (doc : Testimonial) (clk : Nat) : List Testimonial :=
  let d := preSaveT false { doc with updatedAt := clk }
  postSaveT d (recs.map (fun t => if t.id == d.id then d else t)) clk

/-- The update body accepted by `updateTestimonial` (fields the model
tracks), each optional. -/
structure TUpd where
  featured : Option Bool
  rating : Option Int
  verified : Option Bool
  status : Option TStatus
deriving DecidableEq, Repr

/-- Validators run by `findByIdAndUpdate` with `runValidators: true`. -/
def validUpd (u : TUpd) : Bool :=
  match u.rating with
  | none => true
  | some r => 1 ≤ r && r ≤ 5

/-- Apply an update body to a document; `timestamps` bumps `updatedAt`. -/
def applyUpd (t : Testimonial) (u : TUpd) (clk : Nat) : Testimonial :=
  { t with
    featured := u.featured.getD t.featured
    rating := u.rating.getD t.rating
    verified := u.verified.getD t.verified
    status := u.status.getD t.status
    updatedAt := clk }

/-- A testimonial write operation, one per mutating endpoint of
`testimonialController.js`. -/
inductive TOp where
  | create (inp : TInput) : TOp
  | update (i : Nat) (u : TUpd) : TOp
  | setFeatured (i : Nat) (b : Bool) : TOp
  | approve (i : Nat) : TOp
  | reject (i : Nat) : TOp
  | verify (i : Nat) : TOp
deriving DecidableEq, Repr

/-- Look a testimonial up by id, `findById`. -/
def findT (recs : List Testimonial) (i : Nat) : Option Testimonial :=
  recs.find? (fun t => t.id == i)

/-- One write endpoint call.  `create` is `Testimonial.create`.  `update`
is `findByIdAndUpdate`, a query-level update: Mongoose document save
middleware (the pre-save auto-feature and the post-save featured cap) does
not run on it.  `setFeatured` is the `PATCH :id/toggle-featured` handler,
which assigns the request-body boolean and saves.  `approve`, `reject` and
`verify` call the instance method (one save) and then save again after
setting `updatedBy`. -/
def applyTOp (op : TOp) (db : TDB) : TDB :=
  match op with
  | .create inp => createT inp db
  | .update i u =>
      match findT db.recs i with
      | none => db
      | some t =>
          if validUpd u then
            { db with
              recs := db.recs.map (fun x => if x.id == t.id then applyUpd t u db.clock else x)
              clock := db.clock + 1 }
          else db
  | .setFeatured i b =>
      match findT db.recs i with
      | none => db
      | some t =>
          { db with recs := saveT db.recs { t with featured := b } db.clock
                    clock := db.clock + 1 }
  | .approve i =>
      match findT db.recs i with
      | none => db
      | some t =>
          let recs1 := saveT db.recs { t with status := .approved } db.clock
          match findT recs1 i with
          | none => db
          | some t1 =>
              { db with recs := saveT recs1 t1 (db.clock + 1), clock := db.clock + 2 }
  | .reject i =>
      match findT db.recs i with
      | none => db
      | some t =>
          let recs1 := saveT db.recs { t with status := .rejected } db.clock
          match findT recs1 i with
          | none => db
          | some t1 =>
              { db with recs := saveT recs1 t1 (db.clock + 1), clock := db.clock + 2 }
  | .verify i =>
      match findT db.recs i with
      | none => db
      | some t =>
          let recs1 := saveT db.recs { t with verified := true } db.clock
          match findT recs1 i with
          | none => db
          | some t1 =>
              { db with recs := saveT recs1 t1 (db.clock + 1), clock := db.clock + 2 }

/-- Run a sequence of write operations from the empty store. -/
def runTOps (ops : List TOp) : TDB :=
  ops.foldl (fun db op => applyTOp op db) emptyTDB

/-! ## Testimonial controllers (`src/controllers/testimonialController.js`) -/

/-- The query parameters destructured by `getTestimonials`. -/
structure TParams where
  page : JVal
  limit : JVal
  featured : JVal
  rating : JVal
  company : JVal
  status : JVal
  search : JVal
  sortBy : JVal
  sortOrder : JVal
deriving DecidableEq, Repr

/-- A `TParams` with every parameter absent. -/
def noTParams : TParams :=
  { page := .undef, limit := .undef, featured := .undef, rating := .undef
    company := .undef, status := .undef, search := .undef
    sortBy := .undef, sortOrder := .undef }

/-- The Mongo filter built by `getTestimonials` lines 20 to 56. -/
structure TQuery where
  status : String
  featured : Option Bool
  minRating : Option Int
  company : Option String
  search : Option String
deriving DecidableEq, Repr

/-- Lines 20 to 56 of `getTestimonials`: status is the supplied value only
for an admin caller and `approved` otherwise; `featured` compares the raw
parameter with the string `true`; a truthy `rating` adds a `$gte` filter
only when `parseInt` does not yield `NaN`; truthy `company` and `search`
add case-insensitive regex filters. -/
def buildTQuery (user : Option ReqUser) (p : TParams) : TQuery :=
  let statusParam := p.status.withDefault (.str "approved")
  { status :=
      if statusParam.truthy && isAdminUser user then statusParam.asString else "approved"
    featured :=
      match p.featured with
      | .undef => none
      | v => some (v == .str "true")
    minRating := if p.rating.truthy then p.rating.parseIntOf else none
    company := if p.company.truthy then some p.company.asString else none
    search := if p.search.truthy then some p.search.asString else none }

/-- Whether a testimonial document matches the built filter. -/
def tMatches (q : TQuery) (t : Testimonial) : Bool :=
  (t.status.asString == q.status) &&
  (match q.featured with | none => true | some b => t.featured == b) &&
  (match q.minRating with | none => true | some r => decide (r ≤ t.rating)) &&
  (match q.company with | none => true | some c => ciContains t.company c) &&
  (match q.search with
   | none => true
   | some s =>
       ciContains t.name s || ciContains t.company s ||
       ciContains t.position s || ciContains t.message s)

/-- Sort key for `sort[sortBy]`; fields without an order-relevant value in
the model compare equal (Mongo leaves equal keys in natural order, and the
model sort is stable). -/
def tSortKey (sortBy : String) (t : Testimonial) : Int :=
  if sortBy == "createdAt" then t.createdAt
  else if sortBy == "updatedAt" then t.updatedAt
  else if sortBy == "rating" then t.rating
  else 0

/-- Insert an element before the first entry it compares at-or-before;
keeps earlier elements with equal keys in front. -/
def insertByLe (le : α → α → Bool) (x : α) : List α → List α
  | [] => [x]
  | y :: ys => if le x y then x :: y :: ys else y :: insertByLe le x ys

/-- Stable insertion sort. -/
def sortByLe (le : α → α → Bool) : List α → List α
  | [] => []
  | x :: xs => insertByLe le x (sortByLe le xs)

/-- Stable sort of the store by a key, descending when `desc`. -/
def sortByKey (key : α → Int) (desc : Bool) (l : List α) : List α :=
  sortByLe (fun a b => if desc then decide (key b ≤ key a) else decide (key a ≤ key b)) l

/-- `skip = (page - 1) * limit` with the JS coercions of line 69. -/
def tPlanSkip (p : TParams) : Option Int :=
  jsMul (jsSub (p.page.withDefault (.num 1)).toNumber (some 1))
    (p.limit.withDefault (.num 10)).toNumber

/-- `limit(limit * 1)` with the JS coercions of line 68. -/
def tPlanLimit (p : TParams) : Option Int :=
  jsMul (p.limit.withDefault (.num 10)).toNumber (some 1)

/-- The pagination block of a listing response.  `page` and `limit` are
`parseInt` results and may be `NaN`. -/
structure Pagination where
  page : Option Int
  pages : Nat
  total : Nat
  limit : Option Int
deriving DecidableEq, Repr

/-- A `getTestimonials` response. -/
structure TListResponse where
  testimonials : List Testimonial
  pagination : Pagination
deriving DecidableEq, Repr

/-- The matching documents of a `getTestimonials` call in result order. -/
def tSorted (db : List Testimonial) (user : Option ReqUser) (p : TParams) : List Testimonial :=
  sortByKey (tSortKey (p.sortBy.withDefault (.str "createdAt")).asString)
    ((p.sortOrder.withDefault (.str "desc")) == .str "desc")
    (db.filter (tMatches (buildTQuery user p)))

/-- `getTestimonials`: build the filter, sort, apply skip and limit, count
the matching documents and return the pagination block.  The store is not
specified on a `NaN`, negative or zero skip or limit, hence `none` there. -/
def getTestimonials (db : List Testimonial) (user : Option ReqUser) (p : TParams) :
    Option TListResponse :=
  match tPlanSkip p, tPlanLimit p with
  | some s, some k =>
      if 0 ≤ s ∧ 1 ≤ k then
        let sorted := tSorted db user p
        let total := (db.filter (tMatches (buildTQuery user p))).length
        some
          { testimonials := (sorted.drop s.toNat).take k.toNat
            pagination :=
              { page := (p.page.withDefault (.num 1)).parseIntOf
                pages := ceilJS total k.toNat
                total := total
                limit := (p.limit.withDefault (.num 10)).parseIntOf } }
      else none
  | _, _ => none

/-- `getTestimonial` (single fetch): 404 when absent, 404 when the status
is not `approved` and the caller is not an admin. -/
def getTestimonialById (db : List Testimonial) (user : Option ReqUser) (i : Nat) :
    Except Nat Testimonial :=
  match findT db i with
  | none => .error 404
  | some t =>
      if t.status != .approved && !(isAdminUser user) then .error 404 else .ok t

/-- The invalid-rating test of `getTestimonialsByRating` lines 295 to 299:
`isNaN(minRating) || minRating < 1 || minRating > 5`. -/
def invalidRatingArg (s : String) : Bool :=
  match parseIntJS s with
  | none => true
  | some r => r < 1 || 5 < r

/-- A `getTestimonialsByRating` response. -/
structure TRatingResponse where
  testimonials : List Testimonial
  rating : Int
  pagination : Pagination
deriving DecidableEq, Repr

/-- `getTestimonialsByRating`: reject a rating outside 1 to 5 with a 400
validation error; otherwise list `findByRating` results (approved, rating
at least the minimum) sorted by `createdAt` descending with the same
pagination scheme as the general listing. -/
def getTestimonialsByRating (db : List Testimonial) (ratingArg : String)
    (page limit : JVal) : Except Nat (Option TRatingResponse) :=
  match parseIntJS ratingArg with
  | none => .error 400
  | some r =>
      if r < 1 || 5 < r then .error 400
      else
        let q : TParams := { noTParams with page := page, limit := limit }
        match tPlanSkip q, tPlanLimit q with
        | some s, some k =>
            if 0 ≤ s ∧ 1 ≤ k then
              let matched := db.filter (fun t => decide (r ≤ t.rating) && t.status == .approved)
              let sorted := sortByKey (·.createdAt) true matched
              .ok (some
                { testimonials := (sorted.drop s.toNat).take k.toNat
                  rating := r
                  pagination :=
                    { page := (page.withDefault (.num 1)).parseIntOf
                      pages := ceilJS matched.length k.toNat
                      total := matched.length
                      limit := (limit.withDefault (.num 10)).parseIntOf } })
            else .ok none
        | _, _ => .ok none

/-! ## Project model (`src/models/Project.js`) -/

/-- The `status` enum of the project schema. -/
inductive PStatus where
  | draft : PStatus
  | published : PStatus
  | archived : PStatus
deriving DecidableEq, Repr

/-- The string stored for a project status. -/
def PStatus.asString : PStatus → String
  | .draft => "draft"
  | .published => "published"
  | .archived => "archived"

/-- A project document.  URL fields and creator references that no handler
logic reads are omitted. -/
structure Project where
  id : Nat
  title : String
  description : String
  technologies : List String
  year : String
  featured : Bool
  status : PStatus
  viewCount : Nat
  createdAt : Nat
  updatedAt : Nat
deriving DecidableEq, Repr

/-- `projectSchema.methods.incrementViews` before its save:
`viewCount = (viewCount || 0) + 1`. -/
def incrementViews (p : Project) : Project :=
  { p with viewCount := p.viewCount + 1 }

/-- `projectSchema.methods.toggleFeatured` before its save:
`featured = !featured`.  The save bumps `updatedAt`. -/
def toggleFeaturedMethod (p : Project) (clk : Nat) : Project :=
  { p with featured := !p.featured, updatedAt := clk }

/-- Look a project up by id, `findById`. -/
def findP (recs : List Project) (i : Nat) : Option Project :=
  recs.find? (fun p => p.id == i)

/-- `document.save()` on a project: write the document back by id with a
bumped `updatedAt`.  The project schema has no post-save middleware; its
pre-save hook only re-trims `technologies` and `tags` when they were
modified, which the operations below never do. -/
def savePDoc (recs : List Project) (doc : Project) (clk : Nat) : List Project :=
  let d := { doc with updatedAt := clk }
  recs.map (fun p => if p.id == d.id then d else p)

/-! ## Project controllers (`src/controllers/projectController.js`) -/

/-- The query parameters destructured by `getProjects`. -/
structure PParams where
  page : JVal
  limit : JVal
  featured : JVal
  year : JVal
  tech : JVal
  status : JVal
  search : JVal
  sortBy : JVal
  sortOrder : JVal
deriving DecidableEq, Repr

/-- The Mongo filter built by `getProjects` lines 20 to 52. -/
structure PQuery where
  status : String
  featured : Option Bool
  year : Option String
  tech : Option String
  search : Option String
deriving DecidableEq, Repr

/-- Lines 20 to 52 of `getProjects`: status is the supplied value only for
an admin caller and `published` otherwise; `featured` compares the raw
parameter with the string `true`; truthy `year`, `tech` and `search` add
their filters. -/
def buildPQuery (user : Option ReqUser) (p : PParams) : PQuery :=
  let statusParam := p.status.withDefault (.str "published")
  { status :=
      if statusParam.truthy && isAdminUser user then statusParam.asString else "published"
    featured :=
      match p.featured with
      | .undef => none
      | v => some (v == .str "true")
    year := if p.year.truthy then some p.year.asString else none
    tech := if p.tech.truthy then some p.tech.asString else none
    search := if p.search.truthy then some p.search.asString else none }

/-- Whether a project document matches the built filter. -/
def pMatches (q : PQuery) (p : Project) : Bool :=
  (p.status.asString == q.status) &&
  (match q.featured with | none => true | some b => p.featured == b) &&
  (match q.year with | none => true | some y => p.year == y) &&
  (match q.tech with | none => true | some c => p.technologies.any (fun t => ciContains t c)) &&
  (match q.search with
   | none => true
   | some s =>
       ciContains p.title s || ciContains p.description s ||
       p.technologies.any (fun t => ciContains t s))

/-- Sort key for the project listing. -/
def pSortKey (sortBy : String) (p : Project) : Int :=
  if sortBy == "createdAt" then p.createdAt
  else if sortBy == "updatedAt" then p.updatedAt
  else if sortBy == "viewCount" then p.viewCount
  else 0

/-- `skip = (page - 1) * limit` of `getProjects` line 64. -/
def pPlanSkip (p : PParams) : Option Int :=
  jsMul (jsSub (p.page.withDefault (.num 1)).toNumber (some 1))
    (p.limit.withDefault (.num 10)).toNumber

/-- `limit(limit * 1)` of `getProjects` line 63. -/
def pPlanLimit (p : PParams) : Option Int :=
  jsMul (p.limit.withDefault (.num 10)).toNumber (some 1)

/-- A `getProjects` response. -/
structure PListResponse where
  projects : List Project
  pagination : Pagination
deriving DecidableEq, Repr

/-- The matching documents of a `getProjects` call in result order. -/
def pSorted (db : List Project) (user : Option ReqUser) (p : PParams) : List Project :=
  sortByKey (pSortKey (p.sortBy.withDefault (.str "createdAt")).asString)
    ((p.sortOrder.withDefault (.str "desc")) == .str "desc")
    (db.filter (pMatches (buildPQuery user p)))

/-- `getProjects`: build the filter, sort, apply skip and limit, count the
matching documents and return the pagination block. -/
def getProjects (db : List Project) (user : Option ReqUser) (p : PParams) :
    Option PListResponse :=
  match pPlanSkip p, pPlanLimit p with
  | some s, some k =>
      if 0 ≤ s ∧ 1 ≤ k then
        let sorted := pSorted db user p
        let total := (db.filter (pMatches (buildPQuery user p))).length
        some
          { projects := (sorted.drop s.toNat).take k.toNat
            pagination :=
              { page := (p.page.withDefault (.num 1)).parseIntOf
                pages := ceilJS total k.toNat
                total := total
                limit := (p.limit.withDefault (.num 10)).parseIntOf } }
      else none
  | _, _ => none

/-- `getProject` (single fetch): 404 when absent; 404 when the status is
not `published` and the caller is not an admin; a published project has
its view count incremented by `incrementViews` and the incremented
document is both returned and saved. -/
def getProjectById (db : List Project) (user : Option ReqUser) (i : Nat) (clk : Nat) :
    Except Nat Project × List Project :=
  match findP db i with
  | none => (.error 404, db)
  | some p =>
      if p.status != .published && !(isAdminUser user) then (.error 404, db)
      else if p.status == .published then
        let p1 := incrementViews p
        (.ok p1, savePDoc db p1 clk)
      else (.ok p, db)

/-- The `PATCH /api/projects/:id/featured` handler `toggleFeatured`: 404
when absent, 400 when the request body `featured` is not a boolean, and
otherwise it assigns the body value to the document and saves.  `none`
models a body whose `featured` is missing or not a boolean. -/
def toggleFeaturedEndpoint (db : List Project) (i : Nat) (body : Option Bool) (clk : Nat) :
    Except Nat Project × List Project :=
  match findP db i with
  | none => (.error 404, db)
  | some p =>
      match body with
      | none => (.error 400, db)
      | some b =>
          let p1 := { p with featured := b, updatedAt := clk }
          (.ok p1, savePDoc db p1 clk)

/-! ## Authentication (`src/controllers/authController.js`) -/

/-- Modelled from the spec: the `User` model (`src/models/User.js`) is not
among the sources.  Per section 3 of the specification a user has a unique
username and email, a password hash, a role, an active flag and a
last-login timestamp. -/
structure AuthUser where
  id : Nat
  username : String
  email : String
  password : String
  role : String
  isActive : Bool
  lastLogin : Option Nat
deriving DecidableEq, Repr

/-- The user store. -/
structure AuthDB where
  users : List AuthUser
  nextId : Nat
deriving DecidableEq, Repr

/-- Modelled from the spec: `User.findByEmail`, a lookup of the user with
the given (unique) email. -/
def findByEmail (db : AuthDB) (e : String) : Option AuthUser :=
  db.users.find? (fun u => u.email == e)

/-- Modelled from the spec: the credential service hash.  Only the
round-trip property matters to the controller logic: `bcryptCompare p h`
holds exactly when `h` is the hash of `p`. -/
def hashPassword (p : String) : String := "bcrypt$" ++ p

/-- Modelled from the spec: `bcrypt.compare`. -/
def bcryptCompare (p h : String) : Bool := h == hashPassword p

/-- A registration request body.  The controller destructures only
`username`, `email` and `password`; any `role` supplied by the caller is
carried here to show that it is ignored. -/
structure RegInput where
  username : String
  email : String
  password : String
  role : Option String
deriving DecidableEq, Repr

/-- `register` (`authController.js` lines 22 to 64): 409 when the email is
already registered, 409 when the username is taken, otherwise create the
user with the hashed password and `role: 'admin'` and update the
last-login timestamp.  The active flag is the schema default `true`
(modelled from the spec). -/
def register (db : AuthDB) (inp : RegInput) (clk : Nat) : Except Nat AuthUser × AuthDB :=
  if (findByEmail db inp.email).isSome then (.error 409, db)
  else if (db.users.find? (fun u => u.username == inp.username)).isSome then (.error 409, db)
  else
    let u : AuthUser :=
      { id := db.nextId
        username := inp.username
        email := inp.email
        password := hashPassword inp.password
        role := "admin"
        isActive := true
        lastLogin := some clk }
    (.ok u, { users := db.users ++ [u], nextId := db.nextId + 1 })

/-- `login` (`authController.js` lines 69 to 105): 401 when no user has
the email, 401 when the account is deactivated (checked before password
verification), 401 when the password does not verify against the stored
hash; only on success is the last-login timestamp updated. -/
def login (db : AuthDB) (email password : String) (clk : Nat) :
    Except Nat AuthUser × AuthDB :=
  match findByEmail db email with
  | none => (.error 401, db)
  | some u =>
      if !u.isActive then (.error 401, db)
      else if !(bcryptCompare password u.password) then (.error 401, db)
      else
        let u1 := { u with lastLogin := some clk }
        (.ok u1, { db with users := db.users.map (fun v => if v.id == u.id then u1 else v) })

/-! ## Derived definitions used by the statements -/

/-- The ids of the store. -/
def idsOf (l : List Testimonial) : List Nat := l.map (·.id)

/-- Well-formed store contents: ids are pairwise distinct and below the
id source. -/
def WFrecs (l : List Testimonial) (n : Nat) : Prop :=
  (∀ i ∈ idsOf l, i < n) ∧ (idsOf l).Nodup

/-- The store invariant of interest: well-formed ids and at most 10
featured testimonials. -/
def InvT (db : TDB) : Prop := WFrecs db.recs db.nextId ∧ featuredCount db.recs ≤ 10

/-- Whether a write operation is the `updateTestimonial` endpoint. -/
def isUpdateOp : TOp → Bool
  | .update _ _ => true
  | _ => false

/-- The featured flag a creation body receives from the pre-save
middleware. -/
def autoFeatured (inp : TInput) : Bool :=
  inp.featured || (inp.rating == 5 && inp.verified)

/-- A valid five-star creation body used as a concrete witness input. -/
def wInp5 : TInput :=
  { name := "Jane Doe", position := "", company := "", message := "Excellent work!"
    rating := 5, featured := false, verified := true, status := .approved }

/-- A four-star body explicitly marked featured, the counterexample input
of the auto-feature claim. -/
def cInpExplicit : TInput :=
  { name := "Jane Doe", position := "", company := "", message := "Excellent work!"
    rating := 4, featured := true, verified := false, status := .approved }

/-- A plain four-star body, neither featured nor verified. -/
def plainInp : TInput :=
  { name := "Jane Doe", position := "", company := "", message := "Excellent work!"
    rating := 4, featured := false, verified := false, status := .approved }

/-- An update body that only sets `featured` to true. -/
def featUpd : TUpd := { featured := some true, rating := none, verified := none, status := none }

/-- Eleven creations followed by eleven updates that set `featured`; the
updates go through `findByIdAndUpdate` and bypass the save middleware. -/
def capBreakOps : List TOp :=
  List.replicate 11 (TOp.create plainInp) ++
    (List.range 11).map (fun i => TOp.update i featUpd)

/-- A store of ten featured testimonials with distinct ids and timestamps. -/
def tenFeaturedDB : TDB :=
  { recs := (List.range 10).map (fun i =>
      { id := i, name := "Jane Doe", position := "", company := ""
        message := "Excellent work!", rating := 5, featured := true
        status := .approved, verified := false, createdAt := i, updatedAt := i })
    nextId := 10
    clock := 100 }

/-- A published project used in concrete witnesses. -/
def wProj : Project :=
  { id := 0, title := "Portfolio", description := "", technologies := []
    year := "2024", featured := false, status := .published, viewCount := 3
    createdAt := 0, updatedAt := 0 }

/-- A draft project used in concrete witnesses. -/
def wDraft : Project :=
  { id := 1, title := "Draft thing", description := "", technologies := []
    year := "2024", featured := false, status := .draft, viewCount := 0
    createdAt := 0, updatedAt := 0 }

/-- An approved five-star testimonial stored with id 0. -/
def wTest : Testimonial :=
  { id := 0, name := "Jane Doe", position := "", company := ""
    message := "Excellent work!", rating := 5, featured := false
    status := .approved, verified := false, createdAt := 0, updatedAt := 0 }

/-- A pending testimonial stored with id 1. -/
def wPending : Testimonial :=
  { id := 1, name := "John Roe", position := "", company := ""
    message := "Quite fine work.", rating := 3, featured := false
    status := .pending, verified := false, createdAt := 0, updatedAt := 0 }

/-- A `PParams` with every parameter absent. -/
def noPParams : PParams :=
  { page := .undef, limit := .undef, featured := .undef, year := .undef
    tech := .undef, status := .undef, search := .undef
    sortBy := .undef, sortOrder := .undef }

/-- An active stored account. -/
def wAlice : AuthUser :=
  { id := 0, username := "alice", email := "alice@example.com"
    password := hashPassword "Secret123", role := "admin", isActive := true
    lastLogin := none }

/-- A deactivated stored account. -/
def wBob : AuthUser :=
  { id := 1, username := "bob", email := "bob@example.com"
    password := hashPassword "Hunter245", role := "admin", isActive := false
    lastLogin := none }

/-- A user store holding one active and one deactivated account. -/
def wAuthDB : AuthDB := { users := [wAlice, wBob], nextId := 2 }

/-- A registration body (the `role` field is ignored by the controller). -/
def wReg1 : RegInput :=
  { username := "carol", email := "carol@example.com", password := "Passw0rd", role := none }

/-- A second registration body reusing the email of the first. -/
def wReg2 : RegInput :=
  { username := "dave", email := "carol@example.com", password := "Passw0rd", role := some "user" }

/-- The account the first registration body creates at clock 3. -/
def wCarol : AuthUser :=
  { id := 2, username := "carol", email := "carol@example.com"
    password := hashPassword "Passw0rd", role := "admin", isActive := true
    lastLogin := some 3 }

/-- The account the second registration body creates at clock 0 on the
base store. -/
def wDave : AuthUser :=
  { id := 2, username := "dave", email := "carol@example.com"
    password := hashPassword "Passw0rd", role := "admin", isActive := true
    lastLogin := some 0 }

/-- The store after the first registration. -/
def wAuthDB1 : AuthDB := { users := [wAlice, wBob, wCarol], nextId := 3 }

/-! ## Helper lemmas -/

theorem tStatus_asString_approved (s : TStatus) : (s.asString == "approved") = true ↔ s = .approved := by
  cases s <;> simp [TStatus.asString]

theorem pStatus_asString_published (s : PStatus) : (s.asString == "published") = true ↔ s = .published := by
  cases s <;> simp [PStatus.asString]

theorem preSaveT_false (t : Testimonial) : preSaveT false t = t := by
  simp [preSaveT]

theorem preSaveT_id (b : Bool) (t : Testimonial) : (preSaveT b t).id = t.id := by
  unfold preSaveT; split <;> rfl

theorem preSaveT_mkDoc_featured (inp : TInput) (i c : Nat) :
    (preSaveT true (mkDoc inp i c)).featured = (inp.featured || (inp.rating == 5 && inp.verified)) := by
  unfold preSaveT mkDoc
  split <;> rename_i h <;> simp_all

theorem idsOf_map_eq (l : List Testimonial) (f : Testimonial → Testimonial)
    (hf : ∀ t, (f t).id = t.id) : idsOf (l.map f) = idsOf l := by
  unfold idsOf
  rw [List.map_map]
  exact List.map_congr_left (fun a _ => hf a)

theorem findT_map (l : List Testimonial) (f : Testimonial → Testimonial)
    (hf : ∀ t, (f t).id = t.id) (j : Nat) :
    findT (l.map f) j = (findT l j).map f := by
  unfold findT
  rw [List.find?_map]
  have : ((fun t : Testimonial => t.id == j) ∘ f) = (fun t : Testimonial => t.id == j) := by
    funext t
    simp [Function.comp, hf]
  rw [this]

theorem findP_map (l : List Project) (f : Project → Project)
    (hf : ∀ p, (f p).id = p.id) (j : Nat) :
    findP (l.map f) j = (findP l j).map f := by
  unfold findP
  rw [List.find?_map]
  have : ((fun p : Project => p.id == j) ∘ f) = (fun p : Project => p.id == j) := by
    funext p
    simp [Function.comp, hf]
  rw [this]

theorem findT_append_right (l : List Testimonial) (d : Testimonial) (j : Nat)
    (h : ∀ t ∈ l, t.id ≠ j) (hd : d.id = j) : findT (l ++ [d]) j = some d := by
  unfold findT
  rw [List.find?_append]
  have h1 : l.find? (fun t => t.id == j) = none := by
    rw [List.find?_eq_none]
    intro t ht
    simpa using h t ht
  rw [h1]
  simp [List.find?, hd]

theorem findT_of_mem_nodup (l : List Testimonial) (d : Testimonial)
    (hn : (idsOf l).Nodup) (hm : d ∈ l) : findT l d.id = some d := by
  induction l with
  | nil => cases hm
  | cons h t ih =>
      rw [idsOf, List.map_cons, List.nodup_cons] at hn
      rcases List.mem_cons.mp hm with rfl | hmt
      · simp [findT, List.find?]
      · have hne : (h.id == d.id) = false := by
          apply beq_false_of_ne
          intro he
          exact hn.1 (he ▸ List.mem_map_of_mem (·.id) hmt)
        simp only [findT, List.find?, hne]
        exact ih hn.2 hmt

theorem pickOldest_mem (l : List Testimonial) (m : Testimonial)
    (h : pickOldest l = some m) : m ∈ l := by
  match l with
  | [] => cases h
  | t :: ts =>
      simp only [pickOldest, Option.some.injEq] at h
      subst h
      have aux : ∀ (ts : List Testimonial) (t : Testimonial),
          (ts.foldl (fun m x => if x.updatedAt < m.updatedAt then x else m) t) ∈ t :: ts := by
        intro ts
        induction ts with
        | nil => intro t; simp
        | cons x xs ih =>
            intro t
            simp only [List.foldl_cons]
            rcases List.mem_cons.mp (ih (if x.updatedAt < t.updatedAt then x else t)) with hh | hh
            · rw [hh]
              split <;> simp
            · simp [List.mem_cons.mpr (Or.inr hh), List.mem_cons]
      exact aux ts t

theorem pickOldest_min (l : List Testimonial) (m : Testimonial)
    (h : pickOldest l = some m) : ∀ x ∈ l, m.updatedAt ≤ x.updatedAt := by
  match l with
  | [] => cases h
  | t :: ts =>
      simp only [pickOldest, Option.some.injEq] at h
      subst h
      have aux : ∀ (ts : List Testimonial) (t : Testimonial),
          (ts.foldl (fun m x => if x.updatedAt < m.updatedAt then x else m) t).updatedAt ≤ t.updatedAt ∧
          ∀ x ∈ ts,
            (ts.foldl (fun m x => if x.updatedAt < m.updatedAt then x else m) t).updatedAt ≤ x.updatedAt := by
        intro ts
        induction ts with
        | nil => intro t; simp
        | cons x xs ih =>
            intro t
            simp only [List.foldl_cons]
            rcases ih (if x.updatedAt < t.updatedAt then x else t) with ⟨h1, h2⟩
            constructor
            · refine le_trans h1 ?_
              split <;> omega
            · intro y hy
              rcases List.mem_cons.mp hy with rfl | hyx
              · refine le_trans h1 ?_
                split <;> omega
              · exact h2 y hyx
      intro x hx
      rcases List.mem_cons.mp hx with rfl | hxs
      · exact (aux ts x).1
      · exact (aux ts t).2 x hxs

theorem pickOldest_isSome (l : List Testimonial) (h : l ≠ []) :
    (pickOldest l).isSome = true := by
  match l with
  | [] => exact absurd rfl h
  | t :: ts => simp [pickOldest]

theorem countP_and_ne (l : List Testimonial) (j : Nat) (h : ∀ t ∈ l, t.id ≠ j) :
    l.countP (fun t => t.featured && t.id != j) = l.countP (·.featured) := by
  induction l with
  | nil => rfl
  | cons x xs ih =>
      have hx : (x.id != j) = true := by
        simpa using h x (List.mem_cons_self x xs)
      rw [List.countP_cons, List.countP_cons, ih (fun t ht => h t (List.mem_cons_of_mem x ht))]
      simp [hx]

theorem countP_map_replace_featured (l : List Testimonial) (j : Nat) (d t0 : Testimonial)
    (hn : (idsOf l).Nodup) (hm : t0 ∈ l) (ht0 : t0.id = j) :
    (l.map (fun t => if t.id == j then d else t)).countP (·.featured)
      + (if t0.featured then 1 else 0)
    = l.countP (·.featured) + (if d.featured then 1 else 0) := by
  induction l with
  | nil => cases hm
  | cons x xs ih =>
      rw [idsOf, List.map_cons, List.nodup_cons] at hn
      rcases List.mem_cons.mp hm with rfl | hmt
      · have hx : (t0.id == j) = true := by simp [ht0]
        have hxs : xs.map (fun t => if t.id == j then d else t) = xs := by
          have : ∀ t ∈ xs, (if t.id == j then d else t) = t := by
            intro t ht
            have : t.id ≠ j := by
              intro he
              exact hn.1 (by rw [ht0, ← he]; exact List.mem_map_of_mem (·.id) ht)
            simp [this]
          rw [List.map_congr_left this]
          exact List.map_id xs
        simp only [List.map_cons, hx, if_true, hxs, List.countP_cons]
        omega
      · have hx : (x.id == j) = false := by
          apply beq_false_of_ne
          intro he
          exact hn.1 (by rw [he, ← ht0]; exact List.mem_map_of_mem (·.id) hmt)
        simp only [List.map_cons, hx, Bool.false_eq_true, if_false, List.countP_cons]
        have := ih hn.2 hmt
        omega

theorem countFeaturedExcept_add_one (l : List Testimonial) (d : Testimonial)
    (hn : (idsOf l).Nodup) (hm : d ∈ l) (hf : d.featured = true) :
    countFeaturedExcept l d.id + 1 = featuredCount l := by
  unfold countFeaturedExcept featuredCount
  induction l with
  | nil => cases hm
  | cons x xs ih =>
      rw [idsOf, List.map_cons, List.nodup_cons] at hn
      rcases List.mem_cons.mp hm with rfl | hmt
      · have h1 : (d.featured && d.id != d.id) = false := by simp
        have h2 : xs.countP (fun t => t.featured && t.id != d.id) = xs.countP (·.featured) := by
          apply countP_and_ne
          intro t ht he
          exact hn.1 (by rw [← he]; exact List.mem_map_of_mem (·.id) ht)
        rw [List.countP_cons, List.countP_cons, h2]
        simp [h1, hf]
      · have hne : x.id ≠ d.id := by
          intro he
          exact hn.1 (by rw [he]; exact List.mem_map_of_mem (·.id) hmt)
        have := ih hn.2 hmt
        rw [List.countP_cons, List.countP_cons]
        have hx : (x.featured && x.id != d.id) = x.featured := by
          have : (x.id != d.id) = true := by simpa using hne
          simp [this]
        rw [hx]
        omega

theorem countFeaturedExcept_append (l : List Testimonial) (d : Testimonial)
    (h : ∀ t ∈ l, t.id ≠ d.id) :
    countFeaturedExcept (l ++ [d]) d.id = featuredCount l := by
  unfold countFeaturedExcept featuredCount
  rw [List.countP_append, countP_and_ne l d.id h]
  simp

theorem featuredCount_append (l : List Testimonial) (d : Testimonial) :
    featuredCount (l ++ [d]) = featuredCount l + (if d.featured then 1 else 0) := by
  unfold featuredCount
  rw [List.countP_append]
  simp [List.countP_cons]

theorem featuredCount_unfeatureOldest (l : List Testimonial) (j clk : Nat)
    (hn : (idsOf l).Nodup) (hc : 1 ≤ countFeaturedExcept l j) :
    featuredCount (unfeatureOldest l j clk) + 1 = featuredCount l := by
  unfold unfeatureOldest
  have hlen : (l.filter (fun t => t.featured && t.id != j)).length ≥ 1 := by
    have := List.countP_eq_length_filter (fun t => t.featured && t.id != j) l
    unfold countFeaturedExcept at hc
    omega
  have hne : l.filter (fun t => t.featured && t.id != j) ≠ [] := by
    intro h
    rw [h] at hlen
    simp at hlen
  have hsome := pickOldest_isSome _ hne
  cases hpk : pickOldest (l.filter (fun t => t.featured && t.id != j)) with
  | none => rw [hpk] at hsome; cases hsome
  | some old =>
      have hmemf := pickOldest_mem _ _ hpk
      have hmem : old ∈ l := (List.mem_filter.mp hmemf).1
      have hprop : (old.featured && old.id != j) = true := (List.mem_filter.mp hmemf).2
      have hof : old.featured = true := by
        cases h : old.featured
        · rw [h] at hprop; simp at hprop
        · rfl
      have hrepl := countP_map_replace_featured l old.id
        { old with featured := false, updatedAt := clk } old hn hmem rfl
      have hd : ({ old with featured := false, updatedAt := clk } : Testimonial).featured = false := rfl
      rw [hof, hd] at hrepl
      simp only [if_true, Bool.false_eq_true, if_false] at hrepl
      unfold featuredCount
      dsimp only
      omega

theorem idsOf_unfeatureOldest (l : List Testimonial) (j clk : Nat) :
    idsOf (unfeatureOldest l j clk) = idsOf l := by
  unfold unfeatureOldest
  cases hpk : pickOldest (l.filter (fun t => t.featured && t.id != j)) with
  | none => rfl
  | some old =>
      apply idsOf_map_eq
      intro t
      split
      · rename_i h
        exact (beq_iff_eq.mp h).symm
      · rfl

theorem idsOf_postSaveT (d : Testimonial) (l : List Testimonial) (clk : Nat) :
    idsOf (postSaveT d l clk) = idsOf l := by
  unfold postSaveT
  split
  · exact idsOf_unfeatureOldest l d.id clk
  · rfl

theorem featuredCount_postSaveT_le (d : Testimonial) (l : List Testimonial) (clk : Nat)
    (hn : (idsOf l).Nodup) (hm : d ∈ l)
    (h11 : featuredCount l ≤ 11)
    (h11f : featuredCount l = 11 → d.featured = true) :
    featuredCount (postSaveT d l clk) ≤ 10 := by
  unfold postSaveT
  split
  · rename_i hcond
    have hdf : d.featured = true := by
      cases h : d.featured
      · rw [h] at hcond; simp at hcond
      · rfl
    have hge : 10 ≤ countFeaturedExcept l d.id := by
      rw [hdf] at hcond
      simpa using hcond
    have heq := countFeaturedExcept_add_one l d hn hm hdf
    have := featuredCount_unfeatureOldest l d.id clk hn (by omega)
    omega
  · rename_i hcond
    by_contra hgt
    have h11' : featuredCount l = 11 := by omega
    have hdf := h11f h11'
    have heq := countFeaturedExcept_add_one l d hn hm hdf
    rw [hdf] at hcond
    simp only [Bool.true_and] at hcond
    have : ¬ (10 ≤ countFeaturedExcept l d.id) := by
      intro hle
      exact hcond (by simpa using hle)
    omega

theorem idsOf_replace (l : List Testimonial) (d : Testimonial) :
    idsOf (l.map (fun t => if t.id == d.id then d else t)) = idsOf l := by
  apply idsOf_map_eq
  intro t
  split
  · rename_i h
    exact (beq_iff_eq.mp h).symm
  · rfl

theorem featuredCount_replace (l : List Testimonial) (d t0 : Testimonial)
    (hn : (idsOf l).Nodup) (hm : t0 ∈ l) (ht0 : t0.id = d.id) :
    featuredCount (l.map (fun t => if t.id == d.id then d else t)) ≤ featuredCount l + 1 ∧
    (featuredCount (l.map (fun t => if t.id == d.id then d else t)) = featuredCount l + 1 →
       d.featured = true) := by
  have h := countP_map_replace_featured l d.id d t0 hn hm ht0
  unfold featuredCount
  constructor
  · cases h1 : t0.featured <;> cases h2 : d.featured <;>
      simp only [h1, h2, if_true, Bool.false_eq_true, if_false] at h <;> omega
  · intro he
    cases h2 : d.featured
    · cases h1 : t0.featured <;>
        simp only [h1, h2, if_true, Bool.false_eq_true, if_false] at h <;> omega
    · rfl

theorem saveT_le (l : List Testimonial) (doc : Testimonial) (clk : Nat)
    (hn : (idsOf l).Nodup) (t0 : Testimonial) (hm : t0 ∈ l) (ht0 : t0.id = doc.id)
    (hc : featuredCount l ≤ 10) :
    featuredCount (saveT l doc clk) ≤ 10 := by
  unfold saveT
  rw [preSaveT_false]
  have hrep := featuredCount_replace l { doc with updatedAt := clk } t0 hn hm ht0
  apply featuredCount_postSaveT_le
  · rw [idsOf_replace]
    exact hn
  · refine List.mem_map.mpr ⟨t0, hm, ?_⟩
    simp [ht0]
  · omega
  · intro h11
    exact hrep.2 (by omega)

theorem idsOf_saveT (l : List Testimonial) (doc : Testimonial) (clk : Nat) :
    idsOf (saveT l doc clk) = idsOf l := by
  unfold saveT
  rw [preSaveT_false, idsOf_postSaveT, idsOf_replace]

theorem invT_createT (inp : TInput) (db : TDB) (h : InvT db) : InvT (createT inp db) := by
  obtain ⟨⟨hlt, hnd⟩, hc⟩ := h
  unfold createT
  split
  · rename_i hv
    dsimp only
    have hdid : (preSaveT true (mkDoc inp db.nextId db.clock)).id = db.nextId := by
      rw [preSaveT_id]
      rfl
    have hids1 : idsOf (db.recs ++ [preSaveT true (mkDoc inp db.nextId db.clock)])
        = idsOf db.recs ++ [db.nextId] := by
      unfold idsOf
      rw [List.map_append]
      simp [hdid]
    have hnotin : db.nextId ∉ idsOf db.recs := fun hmem => lt_irrefl _ (hlt _ hmem)
    have hnd1 : (idsOf (db.recs ++ [preSaveT true (mkDoc inp db.nextId db.clock)])).Nodup := by
      rw [hids1, ← List.concat_eq_append]
      exact List.Nodup.concat hnotin hnd
    refine ⟨⟨?_, ?_⟩, ?_⟩
    · intro i hi
      rw [idsOf_postSaveT, hids1] at hi
      rcases List.mem_append.mp hi with hi | hi
      · exact lt_trans (hlt i hi) (Nat.lt_succ_self _)
      · simp only [List.mem_singleton] at hi
        exact hi ▸ Nat.lt_succ_self db.nextId
    · rw [idsOf_postSaveT]
      exact hnd1
    · apply featuredCount_postSaveT_le _ _ _ hnd1
      · exact List.mem_append.mpr (Or.inr (List.mem_singleton.mpr rfl))
      · rw [featuredCount_append]
        split <;> omega
      · rw [featuredCount_append]
        intro h11
        by_contra hf
        rw [Bool.not_eq_true] at hf
        rw [hf] at h11
        simp only [Bool.false_eq_true, if_false] at h11
        omega
  · exact ⟨⟨hlt, hnd⟩, hc⟩

theorem invT_saveT_db (db : TDB) (doc : Testimonial) (clk : Nat)
    (t0 : Testimonial) (hm : t0 ∈ db.recs) (ht0 : t0.id = doc.id) (h : InvT db) :
    ∀ n c, InvT { recs := saveT db.recs doc clk, nextId := db.nextId + n, clock := c } := by
  obtain ⟨⟨hlt, hnd⟩, hc⟩ := h
  intro n c
  refine ⟨⟨?_, ?_⟩, ?_⟩
  · intro j hj
    rw [idsOf_saveT] at hj
    exact lt_of_lt_of_le (hlt j hj) (Nat.le_add_right _ _)
  · rw [idsOf_saveT]
    exact hnd
  · exact saveT_le db.recs doc clk hnd t0 hm ht0 hc

theorem invT_applyTOp (op : TOp) (db : TDB) (hop : isUpdateOp op = false) (h : InvT db) :
    InvT (applyTOp op db) := by
  cases op with
  | update i u => cases hop
  | create inp =>
      simp only [applyTOp]
      exact invT_createT inp db h
  | setFeatured i b =>
      simp only [applyTOp]
      cases hf : findT db.recs i with
      | none => exact h
      | some t =>
          exact invT_saveT_db db { t with featured := b } db.clock t
            (List.mem_of_find?_eq_some hf) rfl h 0 (db.clock + 1)
  | approve i =>
      simp only [applyTOp]
      cases hf : findT db.recs i with
      | none => exact h
      | some t =>
          dsimp only
          have h1 := invT_saveT_db db { t with status := .approved } db.clock t
            (List.mem_of_find?_eq_some hf) rfl h 0 db.clock
          cases hf1 : findT (saveT db.recs { t with status := .approved } db.clock) i with
          | none => exact h
          | some t1 =>
              exact invT_saveT_db
                { recs := saveT db.recs { t with status := .approved } db.clock
                  nextId := db.nextId, clock := db.clock }
                t1 (db.clock + 1) t1 (List.mem_of_find?_eq_some hf1) rfl h1 0 (db.clock + 2)
  | reject i =>
      simp only [applyTOp]
      cases hf : findT db.recs i with
      | none => exact h
      | some t =>
          dsimp only
          have h1 := invT_saveT_db db { t with status := .rejected } db.clock t
            (List.mem_of_find?_eq_some hf) rfl h 0 db.clock
          cases hf1 : findT (saveT db.recs { t with status := .rejected } db.clock) i with
          | none => exact h
          | some t1 =>
              exact invT_saveT_db
                { recs := saveT db.recs { t with status := .rejected } db.clock
                  nextId := db.nextId, clock := db.clock }
                t1 (db.clock + 1) t1 (List.mem_of_find?_eq_some hf1) rfl h1 0 (db.clock + 2)
  | verify i =>
      simp only [applyTOp]
      cases hf : findT db.recs i with
      | none => exact h
      | some t =>
          dsimp only
          have h1 := invT_saveT_db db { t with verified := true } db.clock t
            (List.mem_of_find?_eq_some hf) rfl h 0 db.clock
          cases hf1 : findT (saveT db.recs { t with verified := true } db.clock) i with
          | none => exact h
          | some t1 =>
              exact invT_saveT_db
                { recs := saveT db.recs { t with verified := true } db.clock
                  nextId := db.nextId, clock := db.clock }
                t1 (db.clock + 1) t1 (List.mem_of_find?_eq_some hf1) rfl h1 0 (db.clock + 2)

theorem invT_runTOps (ops : List TOp) (h : ∀ op ∈ ops, isUpdateOp op = false) :
    InvT (runTOps ops) := by
  have base : InvT emptyTDB := by
    refine ⟨⟨?_, ?_⟩, ?_⟩ <;> simp [emptyTDB, idsOf, featuredCount]
  have step : ∀ (ops : List TOp) (db : TDB), (∀ op ∈ ops, isUpdateOp op = false) →
      InvT db → InvT (ops.foldl (fun db op => applyTOp op db) db) := by
    intro ops
    induction ops with
    | nil => intro db _ hdb; exact hdb
    | cons op rest ih =>
        intro db hops hdb
        rw [List.foldl_cons]
        exact ih _ (fun o ho => hops o (List.mem_cons_of_mem op ho))
          (invT_applyTOp op db (hops op (List.mem_cons_self op rest)) hdb)
  exact step ops emptyTDB h base

theorem ceilJS_eq (a b : Nat) (hb : 1 ≤ b) : ceilJS a b = (a + b - 1) / b := by
  have hb0 : (0 : ℚ) < (b : ℚ) := by exact_mod_cast hb
  have hdm := Nat.div_add_mod (a + b - 1) b
  have hmlt : (a + b - 1) % b < b := Nat.mod_lt _ (by omega)
  have h1 : a ≤ b * ((a + b - 1) / b) := by omega
  have h2 : b * ((a + b - 1) / b) < a + b := by omega
  have hceil : Int.ceil ((a : ℚ) / (b : ℚ)) = ((a + b - 1) / b : Nat) := by
    rw [Int.ceil_eq_iff]
    constructor
    · rw [lt_div_iff₀ hb0]
      have h2q : (b : ℚ) * ((a + b - 1) / b : Nat) < (a : ℚ) + b := by exact_mod_cast h2
      have hgoal : (((a + b - 1) / b : Nat) - 1 : ℚ) * (b : ℚ) < (a : ℚ) := by nlinarith
      exact_mod_cast hgoal
    · rw [div_le_iff₀ hb0, mul_comm]
      exact_mod_cast h1
  unfold ceilJS
  rw [hceil]
  exact Int.toNat_natCast _

theorem findP_savePDoc (db : List Project) (d : Project) (clk i : Nat)
    (hd : d.id = i) (hsome : (findP db i).isSome = true) :
    findP (savePDoc db d clk) i = some { d with updatedAt := clk } := by
  unfold savePDoc
  rw [findP_map]
  · cases hf : findP db i with
    | none => rw [hf] at hsome; cases hsome
    | some q =>
        have hf' : db.find? (fun p => p.id == i) = some q := hf
        have hq := List.find?_some hf'
        have hqi : q.id = i := beq_iff_eq.mp hq
        simp only [Option.map_some']
        have : (q.id == ({ d with updatedAt := clk } : Project).id) = true := by
          simp only
          rw [hqi, hd]
          exact beq_self_eq_true i
        simp [this]
  · intro p
    split
    · rename_i h
      exact (beq_iff_eq.mp h).symm
    · rfl

theorem mem_insertByLe (le : α → α → Bool) (x a : α) (l : List α) :
    a ∈ insertByLe le x l ↔ a = x ∨ a ∈ l := by
  induction l with
  | nil => simp [insertByLe]
  | cons y ys ih =>
      unfold insertByLe
      split
      · simp
      · rw [List.mem_cons, ih, List.mem_cons]
        tauto

theorem mem_sortByLe (le : α → α → Bool) (a : α) (l : List α) :
    a ∈ sortByLe le l ↔ a ∈ l := by
  induction l with
  | nil => simp [sortByLe]
  | cons x xs ih =>
      unfold sortByLe
      rw [mem_insertByLe, ih, List.mem_cons]

theorem mem_slice_tSorted (db : List Testimonial) (user : Option ReqUser) (p : TParams)
    (t : Testimonial) (s k : Nat)
    (h : t ∈ ((tSorted db user p).drop s).take k) :
    tMatches (buildTQuery user p) t = true := by
  have h1 : t ∈ tSorted db user p := List.mem_of_mem_drop (List.mem_of_mem_take h)
  unfold tSorted sortByKey at h1
  rw [mem_sortByLe] at h1
  exact (List.mem_filter.mp h1).2

theorem mem_slice_pSorted (db : List Project) (user : Option ReqUser) (p : PParams)
    (q : Project) (s k : Nat)
    (h : q ∈ ((pSorted db user p).drop s).take k) :
    pMatches (buildPQuery user p) q = true := by
  have h1 : q ∈ pSorted db user p := List.mem_of_mem_drop (List.mem_of_mem_take h)
  unfold pSorted sortByKey at h1
  rw [mem_sortByLe] at h1
  exact (List.mem_filter.mp h1).2

theorem buildTQuery_status_nonadmin (user : Option ReqUser) (hu : isAdminUser user = false)
    (p : TParams) : (buildTQuery user p).status = "approved" := by
  unfold buildTQuery
  simp [hu]

theorem buildPQuery_status_nonadmin (user : Option ReqUser) (hu : isAdminUser user = false)
    (p : PParams) : (buildPQuery user p).status = "published" := by
  unfold buildPQuery
  simp [hu]

theorem tMatches_status (q : TQuery) (t : Testimonial) (h : tMatches q t = true) :
    (t.status.asString == q.status) = true := by
  unfold tMatches at h
  exact (Bool.and_eq_true_iff.mp
    (Bool.and_eq_true_iff.mp
      (Bool.and_eq_true_iff.mp (Bool.and_eq_true_iff.mp h).1).1).1).1

theorem pMatches_status (q : PQuery) (p : Project) (h : pMatches q p = true) :
    (p.status.asString == q.status) = true := by
  unfold pMatches at h
  exact (Bool.and_eq_true_iff.mp
    (Bool.and_eq_true_iff.mp
      (Bool.and_eq_true_iff.mp (Bool.and_eq_true_iff.mp h).1).1).1).1

/-! ## Claim theorems -/

/-- C10: every user created through the public registration endpoint gets
`role = 'admin'` regardless of the request body, and therefore satisfies
the admin role check used on admin-only endpoints. -/
theorem claim10_register_grants_admin :
    ∀ (db : AuthDB) (inp : RegInput) (clk : Nat) (u : AuthUser) (db' : AuthDB),
      register db inp clk = (.ok u, db') →
      u.role = "admin" ∧ isAdminUser (some { id := u.id, role := u.role }) = true := by
  intro db inp clk u db' h
  unfold register at h
  split at h
  · simp at h
  · split at h
    · simp at h
    · have hu := congrArg Prod.fst h
      simp only at hu
      injection hu with hu
      rw [← hu]
      constructor
      · rfl
      · rfl

/-- C10 witness: registering a body that asks for role `user` still
produces an admin. -/
theorem claim10_witness :
    wReg2.role = some "user" ∧
    register wAuthDB wReg2 0 = (.ok wDave, { users := [wAlice, wBob, wDave], nextId := 3 }) ∧
    wDave.role = "admin" ∧ isAdminUser (some { id := wDave.id, role := wDave.role }) = true :=
  ⟨rfl, by rfl,
    claim10_register_grants_admin wAuthDB wReg2 0 wDave
      { users := [wAlice, wBob, wDave], nextId := 3 } (by rfl)⟩

/-- C6: a login with a wrong password returns 401 and changes nothing; a
login against a deactivated account returns 401 regardless of the
password; every failing login leaves the user store (and so `lastLogin`)
unchanged. -/
theorem claim6_login_failures :
    ∀ (db : AuthDB) (e pw : String) (clk : Nat),
      (∀ u, findByEmail db e = some u → u.isActive = true →
         bcryptCompare pw u.password = false →
         login db e pw clk = (.error 401, db)) ∧
      (∀ u, findByEmail db e = some u → u.isActive = false →
         login db e pw clk = (.error 401, db)) ∧
      (∀ c, (login db e pw clk).1 = .error c → (login db e pw clk).2 = db) := by
  intro db e pw clk
  refine ⟨?_, ?_, ?_⟩
  · intro u hf hact hcmp
    unfold login
    rw [hf]
    simp [hact, hcmp]
  · intro u hf hact
    unfold login
    rw [hf]
    simp [hact]
  · intro c h
    unfold login at h ⊢
    cases hf : findByEmail db e with
    | none => rfl
    | some u =>
        rw [hf] at h
        by_cases hact : u.isActive = true
        · by_cases hcmp : bcryptCompare pw u.password = true
          · simp [hact, hcmp] at h
          · simp only [Bool.not_eq_true] at hcmp
            simp [hact, hcmp]
        · simp only [Bool.not_eq_true] at hact
          simp [hact]

/-- C6 witness: the wrong password fails against the active stored user,
the deactivated user fails with the correct password, and both leave the
store unchanged. -/
theorem claim6_witness :
    login wAuthDB "alice@example.com" "WrongPass1" 7 = (.error 401, wAuthDB) ∧
    login wAuthDB "bob@example.com" "Hunter245" 7 = (.error 401, wAuthDB) ∧
    (login wAuthDB "alice@example.com" "WrongPass1" 7).2 = wAuthDB := by
  refine ⟨?_, ?_, ?_⟩
  · exact (claim6_login_failures wAuthDB "alice@example.com" "WrongPass1" 7).1
      wAlice (by rfl) (by decide) (by decide)
  · exact (claim6_login_failures wAuthDB "bob@example.com" "Hunter245" 7).2.1
      wBob (by rfl) (by decide)
  · exact (claim6_login_failures wAuthDB "alice@example.com" "WrongPass1" 7).2.2
      401 (by rfl)

/-- C9: after a successful registration, a second registration that reuses
the email, or the username, of the first returns 409 and creates no user. -/
theorem claim9_duplicate_registration :
    ∀ (db : AuthDB) (inp1 inp2 : RegInput) (t1 t2 : Nat) (u1 : AuthUser) (db1 : AuthDB),
      register db inp1 t1 = (.ok u1, db1) →
      (inp2.email = inp1.email ∨ inp2.username = inp1.username) →
      register db1 inp2 t2 = (.error 409, db1) := by
  intro db inp1 inp2 t1 t2 u1 db1 h1 hdup
  unfold register at h1
  split at h1
  · simp at h1
  · split at h1
    · simp at h1
    · have hdb1 := congrArg Prod.snd h1
      have hu1 := congrArg Prod.fst h1
      simp only at hdb1 hu1
      injection hu1 with hu1
      have humem : u1 ∈ db1.users := by
        rw [← hdb1]
        simp only
        exact List.mem_append.mpr (Or.inr (by rw [← hu1]; exact List.mem_singleton.mpr rfl))
      have huem : u1.email = inp1.email := by rw [← hu1]
      have huun : u1.username = inp1.username := by rw [← hu1]
      unfold register
      split
      · rfl
      · rename_i hmail
        split
        · rfl
        · rename_i huser
          exfalso
          rcases hdup with hdup | hdup
          · apply hmail
            unfold findByEmail
            rw [Option.isSome_iff_ne_none]
            intro hnone
            rw [List.find?_eq_none] at hnone
            refine hnone u1 humem ?_
            rw [huem, hdup]
            exact beq_self_eq_true _
          · apply huser
            rw [Option.isSome_iff_ne_none]
            intro hnone
            rw [List.find?_eq_none] at hnone
            refine hnone u1 humem ?_
            rw [huun, hdup]
            exact beq_self_eq_true _

/-- C9 witness: a fresh registration succeeds and the duplicate-email
retry is rejected with 409 leaving the store unchanged. -/
theorem claim9_witness :
    register wAuthDB1 wReg2 4 = (.error 409, wAuthDB1) :=
  claim9_duplicate_registration wAuthDB wReg1 wReg2 3 4 wCarol wAuthDB1 (by rfl)
    (Or.inl (by decide))

/-- C5: fetching a published project returns it with the view count
incremented by exactly one and stores that increment; fetching a draft
project as a non-admin returns 404 and leaves the store unchanged. -/
theorem claim5_view_count :
    ∀ (db : List Project) (user : Option ReqUser) (i clk : Nat) (p : Project),
      findP db i = some p →
      (p.status = .published →
         (getProjectById db user i clk).1 = .ok (incrementViews p) ∧
         (incrementViews p).viewCount = p.viewCount + 1 ∧
         (findP (getProjectById db user i clk).2 i).map (·.viewCount) = some (p.viewCount + 1)) ∧
      (p.status = .draft → isAdminUser user = false →
         getProjectById db user i clk = (.error 404, db)) := by
  intro db user i clk p hf
  have hf' : db.find? (fun q => q.id == i) = some p := hf
  have hpeq := List.find?_some hf'
  have hpi : p.id = i := beq_iff_eq.mp hpeq
  have hred : getProjectById db user i clk =
      (if p.status != .published && !(isAdminUser user) then (.error 404, db)
       else if p.status == .published then
         (.ok (incrementViews p), savePDoc db (incrementViews p) clk)
       else (.ok p, db)) := by
    unfold getProjectById
    rw [hf]
  constructor
  · intro hpub
    have hne : (p.status != PStatus.published) = false := by rw [hpub]; rfl
    have hbeq : (p.status == PStatus.published) = true := by rw [hpub]; rfl
    rw [hred]
    simp only [hne, Bool.false_and, Bool.false_eq_true, if_false, hbeq, if_true]
    refine ⟨by trivial, by trivial, ?_⟩
    have hsv := findP_savePDoc db (incrementViews p) clk i (by rw [← hpi]; rfl)
      (by simp [hf])
    rw [hsv]
    rfl
  · intro hdr hadm
    have h1 : (p.status != PStatus.published) = true := by rw [hdr]; rfl
    rw [hred]
    simp [h1, hadm]

/-- C5 witness: the stored published project goes from 3 to 4 views, and
the draft project yields 404 unchanged for an anonymous caller. -/
theorem claim5_witness :
    ((getProjectById [wProj, wDraft] none 0 9).1 = .ok (incrementViews wProj) ∧
       (incrementViews wProj).viewCount = wProj.viewCount + 1 ∧
       (findP (getProjectById [wProj, wDraft] none 0 9).2 0).map (·.viewCount) = some 4) ∧
    getProjectById [wProj, wDraft] none 1 9 = (.error 404, [wProj, wDraft]) := by
  constructor
  · exact (claim5_view_count [wProj, wDraft] none 0 9 wProj (by rfl)).1 (by decide)
  · exact (claim5_view_count [wProj, wDraft] none 1 9 wDraft (by rfl)).2 (by decide) (by decide)

/-- C8 counterexample: the featured endpoint is not an involution.  On a
project stored unfeatured, two consecutive calls whose bodies both carry
`featured: true` leave the flag true, not at its original false value. -/
theorem claim8_counterexample :
    wProj.featured = false ∧
    (findP
        (toggleFeaturedEndpoint
          (toggleFeaturedEndpoint [wProj] 0 (some true) 1).2 0 (some true) 2).2 0).map
      (·.featured) = some true := by
  constructor
  · rfl
  · rfl

/-- C8 amended: the `PATCH :id/featured` handler assigns the request-body
boolean, so after two consecutive calls the flag equals the second body
value (it returns to its original value only when that body says so); the
`toggleFeatured` instance method of the Project model, which the endpoint
does not call, is a genuine involution. -/
theorem claim8_amended :
    (∀ (db : List Project) (i : Nat) (b1 b2 : Bool) (t1 t2 : Nat) (p : Project),
       findP db i = some p →
       (findP
           (toggleFeaturedEndpoint
             (toggleFeaturedEndpoint db i (some b1) t1).2 i (some b2) t2).2 i).map
         (·.featured) = some b2) ∧
    (∀ (p : Project) (t1 t2 : Nat),
       (toggleFeaturedMethod (toggleFeaturedMethod p t1) t2).featured = p.featured) := by
  constructor
  · intro db i b1 b2 t1 t2 p hf
    have hf' : db.find? (fun q => q.id == i) = some p := hf
    have hpeq := List.find?_some hf'
    have hpi : p.id = i := beq_iff_eq.mp hpeq
    have step : ∀ (db' : List Project) (q : Project) (b : Bool) (t : Nat),
        findP db' i = some q →
        toggleFeaturedEndpoint db' i (some b) t =
          (.ok { q with featured := b, updatedAt := t },
            savePDoc db' { q with featured := b, updatedAt := t } t) := by
      intro db' q b t hq
      unfold toggleFeaturedEndpoint
      rw [hq]
    have h1 := step db p b1 t1 hf
    have hf1 : findP (toggleFeaturedEndpoint db i (some b1) t1).2 i =
        some { p with featured := b1, updatedAt := t1 } := by
      rw [h1]
      exact findP_savePDoc db { p with featured := b1, updatedAt := t1 } t1 i
        (by rw [← hpi]) (by simp [hf])
    have h2 := step (toggleFeaturedEndpoint db i (some b1) t1).2
      { p with featured := b1, updatedAt := t1 } b2 t2 hf1
    rw [h2]
    have hsv := findP_savePDoc (toggleFeaturedEndpoint db i (some b1) t1).2
      { ({ p with featured := b1, updatedAt := t1 } : Project) with
          featured := b2, updatedAt := t2 } t2 i (by rw [← hpi]) (by simp [hf1])
    rw [hsv]
    rfl
  · intro p t1 t2
    unfold toggleFeaturedMethod
    simp

/-- C8 amended witness: with bodies `true` then `false` the flag ends
false, and the model method applied twice restores the flag. -/
theorem claim8_witness :
    (findP
        (toggleFeaturedEndpoint
          (toggleFeaturedEndpoint [wProj] 0 (some true) 1).2 0 (some false) 2).2 0).map
      (·.featured) = some false ∧
    (toggleFeaturedMethod (toggleFeaturedMethod wProj 1) 2).featured = wProj.featured := by
  constructor
  · exact claim8_amended.1 [wProj] 0 true false 1 2 wProj (by rfl)
  · exact claim8_amended.2 wProj 1 2

/-- The slice of a successful `getTestimonials` response comes from the
sorted matching list. -/
theorem getTestimonials_slice (db : List Testimonial) (user : Option ReqUser) (p : TParams)
    (r : TListResponse) (h : getTestimonials db user p = some r) :
    ∃ s k, r.testimonials = ((tSorted db user p).drop s).take k := by
  unfold getTestimonials at h
  split at h
  · split at h
    · injection h with h
      exact ⟨_, _, by rw [← h]⟩
    · cases h
  · cases h

/-- The slice of a successful `getProjects` response comes from the sorted
matching list. -/
theorem getProjects_slice (db : List Project) (user : Option ReqUser) (p : PParams)
    (r : PListResponse) (h : getProjects db user p = some r) :
    ∃ s k, r.projects = ((pSorted db user p).drop s).take k := by
  unfold getProjects at h
  split at h
  · split at h
    · injection h with h
      exact ⟨_, _, by rw [← h]⟩
    · cases h
  · cases h

/-- C1: status-gated reads.  For a non-admin caller the single testimonial
fetch answers 404 whenever the status is not `approved` and only ever
returns approved documents; the listing filter is forced to `approved`
regardless of the supplied status parameter and every listed document is
approved; the same holds for projects with `published`, the single fetch
answering 404 (not 403) for a draft. -/
theorem claim1_status_gating :
    ∀ (user : Option ReqUser), isAdminUser user = false →
      (∀ (db : List Testimonial) (i : Nat) (t : Testimonial),
         findT db i = some t → t.status ≠ .approved →
         getTestimonialById db user i = .error 404) ∧
      (∀ (db : List Testimonial) (i : Nat) (t : Testimonial),
         getTestimonialById db user i = .ok t → t.status = .approved) ∧
      (∀ p : TParams, (buildTQuery user p).status = "approved") ∧
      (∀ (db : List Testimonial) (p : TParams) (r : TListResponse) (t : Testimonial),
         getTestimonials db user p = some r → t ∈ r.testimonials → t.status = .approved) ∧
      (∀ (db : List Project) (i clk : Nat) (q : Project),
         findP db i = some q → q.status ≠ .published →
         (getProjectById db user i clk).1 = .error 404) ∧
      (∀ (db : List Project) (i clk : Nat) (q : Project),
         (getProjectById db user i clk).1 = .ok q → q.status = .published) ∧
      (∀ p : PParams, (buildPQuery user p).status = "published") ∧
      (∀ (db : List Project) (p : PParams) (r : PListResponse) (q : Project),
         getProjects db user p = some r → q ∈ r.projects → q.status = .published) := by
  intro user hu
  refine ⟨?_, ?_, ?_, ?_, ?_, ?_, ?_, ?_⟩
  · intro db i t hf hs
    unfold getTestimonialById
    rw [hf]
    simp [bne_iff_ne, hs, hu]
  · intro db i t h
    unfold getTestimonialById at h
    cases hf : findT db i with
    | none => rw [hf] at h; cases h
    | some t1 =>
        rw [hf] at h
        by_cases hs : t1.status = .approved
        · have hcond : (t1.status != TStatus.approved) = false := by rw [hs]; rfl
          simp only [hcond, Bool.false_and, Bool.false_eq_true, if_false] at h
          injection h with h
          rw [← h]
          exact hs
        · simp [bne_iff_ne, hs, hu] at h
  · intro p
    exact buildTQuery_status_nonadmin user hu p
  · intro db p r t hr hmem
    obtain ⟨s, k, hslice⟩ := getTestimonials_slice db user p r hr
    rw [hslice] at hmem
    have hmatch := mem_slice_tSorted db user p t s k hmem
    have hst := tMatches_status _ _ hmatch
    rw [buildTQuery_status_nonadmin user hu p] at hst
    exact (tStatus_asString_approved t.status).mp hst
  · intro db i clk q hf hs
    unfold getProjectById
    rw [hf]
    simp [bne_iff_ne, hs, hu]
  · intro db i clk q h
    unfold getProjectById at h
    cases hf : findP db i with
    | none => rw [hf] at h; cases h
    | some q1 =>
        rw [hf] at h
        by_cases hs : q1.status = .published
        · have hcond : (q1.status != PStatus.published) = false := by
            rw [hs]; rfl
          have hbeq : (q1.status == PStatus.published) = true := by
            rw [hs]; rfl
          simp only [hcond, Bool.false_and, Bool.false_eq_true, if_false, hbeq, if_true] at h
          injection h with h
          rw [← h]
          exact hs
        · simp [bne_iff_ne, hs, hu] at h
  · intro p
    exact buildPQuery_status_nonadmin user hu p
  · intro db p r q hr hmem
    obtain ⟨s, k, hslice⟩ := getProjects_slice db user p r hr
    rw [hslice] at hmem
    have hmatch := mem_slice_pSorted db user p q s k hmem
    have hst := pMatches_status _ _ hmatch
    rw [buildPQuery_status_nonadmin user hu p] at hst
    exact (pStatus_asString_published q.status).mp hst

/-- C1 witness: the pending testimonial and the draft project answer 404
to an anonymous caller, the forced statuses are the public ones, and the
listing of a mixed store only returns the approved document. -/
theorem claim1_witness :
    getTestimonialById [wTest, wPending] none 1 = .error 404 ∧
    (buildTQuery none noTParams).status = "approved" ∧
    wTest.status = TStatus.approved ∧
    (getProjectById [wProj, wDraft] none 1 5).1 = .error 404 ∧
    (buildPQuery none noPParams).status = "published" := by
  have hu : isAdminUser none = false := rfl
  have hc := claim1_status_gating none hu
  refine ⟨?_, hc.2.2.1 noTParams, ?_, ?_, hc.2.2.2.2.2.2.1 noPParams⟩
  · exact hc.1 [wTest, wPending] 1 wPending (by rfl) (by decide)
  · cases hr : getTestimonials [wTest, wPending] none noTParams with
    | none =>
        exfalso
        have hsome : (getTestimonials [wTest, wPending] none noTParams).isSome = true := by
          decide
        rw [hr] at hsome
        cases hsome
    | some r =>
        have hproj : (getTestimonials [wTest, wPending] none noTParams).map
            (·.testimonials) = some [wTest] := by decide
        rw [hr] at hproj
        simp only [Option.map_some'] at hproj
        injection hproj with hproj
        exact hc.2.2.2.1 [wTest, wPending] noTParams r wTest hr
          (by rw [hproj]; exact List.mem_singleton.mpr rfl)
  · exact hc.2.2.2.2.1 [wProj, wDraft] 1 5 wDraft (by rfl) (by decide)

/-- Looking a freshly saved document up by its id is unaffected by the
featured-cap eviction, which only rewrites other ids. -/
theorem findT_postSaveT_new (doc : Testimonial) (l : List Testimonial) (clk : Nat)
    (h : findT l doc.id = some doc) :
    findT (postSaveT doc l clk) doc.id = some doc := by
  unfold postSaveT
  split
  · unfold unfeatureOldest
    cases hpk : pickOldest (l.filter (fun t => t.featured && t.id != doc.id)) with
    | none => exact h
    | some old =>
        have hmemf := pickOldest_mem _ _ hpk
        have hprop := (List.mem_filter.mp hmemf).2
        have hne : old.id ≠ doc.id := by
          intro he
          rw [he] at hprop
          simp at hprop
        have hpres : ∀ t : Testimonial,
            ((fun t => if t.id == old.id
                then { old with featured := false, updatedAt := clk } else t) t).id = t.id := by
          intro t
          dsimp only
          split
          · rename_i ht
            exact (beq_iff_eq.mp ht).symm
          · rfl
        rw [findT_map _ _ hpres, h]
        simp only [Option.map_some']
        have hb : (doc.id == old.id) = false := beq_false_of_ne (Ne.symm hne)
        simp [hb]
  · exact h

/-- The record a valid creation stores under the fresh id is exactly the
pre-save output of the built document. -/
theorem findT_createT (inp : TInput) (db : TDB)
    (hlt : ∀ t ∈ db.recs, t.id < db.nextId) (hv : validT inp = true) :
    findT (createT inp db).recs db.nextId
      = some (preSaveT true (mkDoc inp db.nextId db.clock)) := by
  unfold createT
  rw [hv]
  simp only [if_true]
  have hdid : (preSaveT true (mkDoc inp db.nextId db.clock)).id = db.nextId := by
    rw [preSaveT_id]
    rfl
  have hfind1 : findT (db.recs ++ [preSaveT true (mkDoc inp db.nextId db.clock)]) db.nextId
      = some (preSaveT true (mkDoc inp db.nextId db.clock)) :=
    findT_append_right _ _ _ (fun t ht => Nat.ne_of_lt (hlt t ht)) hdid
  have := findT_postSaveT_new (preSaveT true (mkDoc inp db.nextId db.clock))
    (db.recs ++ [preSaveT true (mkDoc inp db.nextId db.clock)]) (db.clock + 1)
    (by rw [hdid]; exact hfind1)
  rw [hdid] at this
  exact this

/-- C3 counterexample: a testimonial created with `featured` explicitly
true, rating 4 and `verified` false has `featured = true` immediately
after creation even though the right side of the claimed equivalence is
false. -/
theorem claim3_counterexample :
    ((findT (createT cInpExplicit emptyTDB).recs 0).map (·.featured) = some true) ∧
    ¬ (cInpExplicit.featured = false ∧ cInpExplicit.rating = 5 ∧
        cInpExplicit.verified = true) := by
  constructor
  · decide
  · decide

/-- C3 amended: among creations that do not set `featured` explicitly
true, the stored record is featured exactly when `rating = 5` and
`verified = true`; a creation that sets `featured` true stays featured. -/
theorem claim3_auto_feature :
    ∀ (db : TDB) (inp : TInput),
      (∀ t ∈ db.recs, t.id < db.nextId) → validT inp = true →
      ∃ doc, findT (createT inp db).recs db.nextId = some doc ∧
        (inp.featured = false → (doc.featured = true ↔ inp.rating = 5 ∧ inp.verified = true)) ∧
        (inp.featured = true → doc.featured = true) := by
  intro db inp hlt hv
  refine ⟨preSaveT true (mkDoc inp db.nextId db.clock), findT_createT inp db hlt hv, ?_, ?_⟩
  · intro hfe
    rw [preSaveT_mkDoc_featured, hfe, Bool.false_or, Bool.and_eq_true, beq_iff_eq]
  · intro hfe
    rw [preSaveT_mkDoc_featured, hfe, Bool.true_or]

/-- C3 amended witness: a five-star verified creation comes out featured,
a plain four-star one does not, and the explicitly featured one stays
featured. -/
theorem claim3_witness :
    (∃ doc, findT (createT wInp5 emptyTDB).recs 0 = some doc ∧ doc.featured = true) ∧
    (∃ doc, findT (createT plainInp emptyTDB).recs 0 = some doc ∧ doc.featured = false) ∧
    (∃ doc, findT (createT cInpExplicit emptyTDB).recs 0 = some doc ∧ doc.featured = true) := by
  refine ⟨?_, ?_, ?_⟩
  · obtain ⟨doc, hf, hiff, -⟩ := claim3_auto_feature emptyTDB wInp5 (by simp [emptyTDB]) (by decide)
    exact ⟨doc, hf, (hiff (by decide)).mpr (by decide)⟩
  · obtain ⟨doc, hf, hiff, -⟩ := claim3_auto_feature emptyTDB plainInp (by simp [emptyTDB]) (by decide)
    refine ⟨doc, hf, ?_⟩
    by_contra hne
    rw [Bool.not_eq_false] at hne
    obtain ⟨h5, -⟩ := (hiff (by decide)).mp hne
    revert h5
    decide
  · obtain ⟨doc, hf, -, hkeep⟩ := claim3_auto_feature emptyTDB cInpExplicit (by simp [emptyTDB]) (by decide)
    exact ⟨doc, hf, hkeep (by decide)⟩

/-- C7 counterexample: a supplied non-numeric `page` does not fall back to
the default (the whole listing call differs from the default call instead
of matching it), and a numeric rating above 5 on the general listing is
applied as a filter rather than omitted (the listing turns empty instead
of matching the unfiltered call). -/
theorem claim7_counterexample :
    ((getTestimonials [] none { noTParams with page := .str "oops" }).isSome = false ∧
       (getTestimonials [] none noTParams).isSome = true) ∧
    ((getTestimonials [wTest] none { noTParams with rating := .str "7" }).map
        (·.testimonials) = some [] ∧
       (getTestimonials [wTest] none noTParams).map (·.testimonials) = some [wTest] ∧
       (buildTQuery none { noTParams with rating := .str "7" }).minRating = some 7) := by
  constructor
  · constructor
    · decide
    · decide
  · refine ⟨?_, ?_, ?_⟩
    · decide
    · decide
    · decide

/-- Multiplying by `NaN` yields `NaN`. -/
theorem jsMul_right_none (a : Option Int) : jsMul a none = none := by
  cases a <;> rfl

/-- C7 amended: a non-numeric `rating` is silently dropped from the
general listing filter; `page` and `limit` take their defaults 1 and 10
only when absent, while a supplied non-numeric `page` or `limit` poisons
the skip and limit computation with `NaN` instead of falling back; the
dedicated rating endpoint rejects a rating outside 1 to 5 with 400; an
out-of-range numeric rating on the general listing is kept as a `$gte`
filter exactly as parsed. -/
theorem claim7_parameter_handling :
    (∀ (user : Option ReqUser) (p : TParams), p.rating.parseIntOf = none →
       (buildTQuery user p).minRating = none) ∧
    (∀ p : TParams, p.page = .undef → p.limit = .undef →
       tPlanSkip p = some 0 ∧ tPlanLimit p = some 10) ∧
    (∀ p : TParams, (p.page.withDefault (.num 1)).toNumber = none → tPlanSkip p = none) ∧
    (∀ p : TParams, (p.limit.withDefault (.num 10)).toNumber = none →
       tPlanSkip p = none ∧ tPlanLimit p = none) ∧
    (∀ (db : List Testimonial) (s : String) (page limit : JVal),
       invalidRatingArg s = true →
       getTestimonialsByRating db s page limit = .error 400) ∧
    (∀ (user : Option ReqUser) (p : TParams) (r : Int), p.rating.truthy = true →
       p.rating.parseIntOf = some r → (buildTQuery user p).minRating = some r) := by
  refine ⟨?_, ?_, ?_, ?_, ?_, ?_⟩
  · intro user p hparse
    unfold buildTQuery
    simp only
    rw [hparse]
    split <;> rfl
  · intro p hpage hlimit
    unfold tPlanSkip tPlanLimit
    rw [hpage, hlimit]
    constructor <;> rfl
  · intro p hnum
    unfold tPlanSkip
    rw [hnum]
    rfl
  · intro p hnum
    unfold tPlanSkip tPlanLimit
    rw [hnum]
    exact ⟨jsMul_right_none _, rfl⟩
  · intro db s page limit hinv
    unfold invalidRatingArg at hinv
    unfold getTestimonialsByRating
    cases hp : parseIntJS s with
    | none => rfl
    | some r =>
        rw [hp] at hinv
        dsimp only at hinv ⊢
        rw [if_pos hinv]
  · intro user p r htr hparse
    unfold buildTQuery
    simp only
    rw [if_pos htr, hparse]

/-- C7 amended witness: the concrete strings `oops` and `7` exercise every
branch: dropped rating filter, defaults when absent, `NaN` skip and limit
when supplied non-numeric, 400 on the dedicated endpoint, preserved
out-of-range filter on the general listing. -/
theorem claim7_witness :
    (buildTQuery none { noTParams with rating := .str "oops" }).minRating = none ∧
    (tPlanSkip noTParams = some 0 ∧ tPlanLimit noTParams = some 10) ∧
    tPlanSkip { noTParams with page := .str "oops" } = none ∧
    (tPlanSkip { noTParams with limit := .str "oops" } = none ∧
       tPlanLimit { noTParams with limit := .str "oops" } = none) ∧
    getTestimonialsByRating [] "7" .undef .undef = .error 400 ∧
    (buildTQuery none { noTParams with rating := .str "7" }).minRating = some 7 := by
  refine ⟨?_, ?_, ?_, ?_, ?_, ?_⟩
  · exact claim7_parameter_handling.1 none _ (by decide)
  · exact claim7_parameter_handling.2.1 noTParams rfl rfl
  · exact claim7_parameter_handling.2.2.1 _ (by decide)
  · exact claim7_parameter_handling.2.2.2.1 _ (by decide)
  · exact claim7_parameter_handling.2.2.2.2.1 [] "7" .undef .undef (by decide)
  · exact claim7_parameter_handling.2.2.2.2.2 none _ 7 (by decide) (by decide)

/-- C4: with numeric page and limit at least 1, both listing endpoints
return `pages = ceil(total/limit)` computed over the count of matching
records, a slice that skips exactly `(page-1)*limit` matching records in
result order, and at most `limit` records. -/
theorem claim4_pagination :
    (∀ (db : List Testimonial) (user : Option ReqUser) (p : TParams) (pv lv : Int),
       (p.page.withDefault (.num 1)).toNumber = some pv →
       (p.limit.withDefault (.num 10)).toNumber = some lv →
       1 ≤ pv → 1 ≤ lv →
       ∃ r, getTestimonials db user p = some r ∧
         r.pagination.total = (db.filter (tMatches (buildTQuery user p))).length ∧
         r.pagination.pages = (r.pagination.total + lv.toNat - 1) / lv.toNat ∧
         r.testimonials =
           ((tSorted db user p).drop ((pv.toNat - 1) * lv.toNat)).take lv.toNat ∧
         r.testimonials.length ≤ lv.toNat) ∧
    (∀ (db : List Project) (user : Option ReqUser) (p : PParams) (pv lv : Int),
       (p.page.withDefault (.num 1)).toNumber = some pv →
       (p.limit.withDefault (.num 10)).toNumber = some lv →
       1 ≤ pv → 1 ≤ lv →
       ∃ r, getProjects db user p = some r ∧
         r.pagination.total = (db.filter (pMatches (buildPQuery user p))).length ∧
         r.pagination.pages = (r.pagination.total + lv.toNat - 1) / lv.toNat ∧
         r.projects =
           ((pSorted db user p).drop ((pv.toNat - 1) * lv.toNat)).take lv.toNat ∧
         r.projects.length ≤ lv.toNat) := by
  constructor
  · intro db user p pv lv hp hl hpv hlv
    have hskip : tPlanSkip p = some ((pv - 1) * lv) := by
      unfold tPlanSkip
      rw [hp, hl]
      rfl
    have hlim : tPlanLimit p = some lv := by
      unfold tPlanLimit
      rw [hl]
      show some (lv * 1) = some lv
      rw [mul_one]
    have hcond : 0 ≤ (pv - 1) * lv ∧ 1 ≤ lv :=
      ⟨mul_nonneg (by omega) (by omega), hlv⟩
    have htn : ((pv - 1) * lv).toNat = (pv.toNat - 1) * lv.toNat := by
      obtain ⟨m, rfl⟩ := Int.eq_ofNat_of_zero_le (by omega : (0 : Int) ≤ pv)
      obtain ⟨k, rfl⟩ := Int.eq_ofNat_of_zero_le (by omega : (0 : Int) ≤ lv)
      have hm1 : 1 ≤ m := by exact_mod_cast hpv
      rw [show ((m : Int) - 1) = ((m - 1 : Nat) : Int) by omega,
        ← Nat.cast_mul, Int.toNat_natCast, Int.toNat_natCast, Int.toNat_natCast]
    unfold getTestimonials
    rw [hskip, hlim]
    dsimp only
    rw [if_pos hcond]
    refine ⟨_, rfl, rfl, ?_, ?_, ?_⟩
    · exact ceilJS_eq _ lv.toNat (by omega)
    · rw [← htn]
    · show (List.take lv.toNat (List.drop ((pv - 1) * lv).toNat (tSorted db user p))).length
        ≤ lv.toNat
      rw [List.length_take]
      exact min_le_left _ _
  · intro db user p pv lv hp hl hpv hlv
    have hskip : pPlanSkip p = some ((pv - 1) * lv) := by
      unfold pPlanSkip
      rw [hp, hl]
      rfl
    have hlim : pPlanLimit p = some lv := by
      unfold pPlanLimit
      rw [hl]
      show some (lv * 1) = some lv
      rw [mul_one]
    have hcond : 0 ≤ (pv - 1) * lv ∧ 1 ≤ lv :=
      ⟨mul_nonneg (by omega) (by omega), hlv⟩
    have htn : ((pv - 1) * lv).toNat = (pv.toNat - 1) * lv.toNat := by
      obtain ⟨m, rfl⟩ := Int.eq_ofNat_of_zero_le (by omega : (0 : Int) ≤ pv)
      obtain ⟨k, rfl⟩ := Int.eq_ofNat_of_zero_le (by omega : (0 : Int) ≤ lv)
      have hm1 : 1 ≤ m := by exact_mod_cast hpv
      rw [show ((m : Int) - 1) = ((m - 1 : Nat) : Int) by omega,
        ← Nat.cast_mul, Int.toNat_natCast, Int.toNat_natCast, Int.toNat_natCast]
    unfold getProjects
    rw [hskip, hlim]
    dsimp only
    rw [if_pos hcond]
    refine ⟨_, rfl, rfl, ?_, ?_, ?_⟩
    · exact ceilJS_eq _ lv.toNat (by omega)
    · rw [← htn]
    · show (List.take lv.toNat (List.drop ((pv - 1) * lv).toNat (pSorted db user p))).length
        ≤ lv.toNat
      rw [List.length_take]
      exact min_le_left _ _

/-- C4 witness: the default parameters are numeric page 1 and limit 10 on
both endpoints. -/
theorem claim4_witness :
    (∃ r, getTestimonials [wTest, wPending] none noTParams = some r ∧
       r.pagination.total =
         ([wTest, wPending].filter (tMatches (buildTQuery none noTParams))).length ∧
       r.pagination.pages = (r.pagination.total + (10 : Int).toNat - 1) / (10 : Int).toNat ∧
       r.testimonials =
         ((tSorted [wTest, wPending] none noTParams).drop
             (((1 : Int).toNat - 1) * (10 : Int).toNat)).take (10 : Int).toNat ∧
       r.testimonials.length ≤ (10 : Int).toNat) ∧
    (∃ r, getProjects [wProj, wDraft] none noPParams = some r ∧
       r.pagination.total =
         ([wProj, wDraft].filter (pMatches (buildPQuery none noPParams))).length ∧
       r.pagination.pages = (r.pagination.total + (10 : Int).toNat - 1) / (10 : Int).toNat ∧
       r.projects =
         ((pSorted [wProj, wDraft] none noPParams).drop
             (((1 : Int).toNat - 1) * (10 : Int).toNat)).take (10 : Int).toNat ∧
       r.projects.length ≤ (10 : Int).toNat) :=
  ⟨claim4_pagination.1 [wTest, wPending] none noTParams 1 10 (by decide) (by decide)
      (by decide) (by decide),
    claim4_pagination.2 [wProj, wDraft] none noPParams 1 10 (by decide) (by decide)
      (by decide) (by decide)⟩

/-- C2 counterexample: the cap does not hold over all write operations.
Eleven creations followed by eleven `updateTestimonial` calls that set
`featured` — query-level updates on which the save middleware does not
run — reach a state with eleven featured testimonials. -/
theorem claim2_counterexample :
    featuredCount (runTOps capBreakOps).recs = 11 := by
  decide

/-- C2 amended: over the write operations that go through document save
(create, toggle-featured, approve, reject, verify) — that is, excluding
the `findByIdAndUpdate`-based update endpoint, which bypasses the save
middleware — every reachable state has at most 10 featured testimonials;
and a creation that becomes an eleventh featured testimonial leaves
exactly 10 featured by clearing `featured` on the featured testimonial
(other than the new one) with the oldest `updatedAt`. -/
theorem claim2_featured_cap :
    (∀ ops : List TOp, (∀ op ∈ ops, isUpdateOp op = false) →
       featuredCount (runTOps ops).recs ≤ 10) ∧
    (∀ (db : TDB) (inp : TInput),
       WFrecs db.recs db.nextId → featuredCount db.recs = 10 → validT inp = true →
       autoFeatured inp = true →
       featuredCount (createT inp db).recs = 10 ∧
       (findT (createT inp db).recs db.nextId).map (·.featured) = some true ∧
       ∃ old, old ∈ db.recs ∧ old.featured = true ∧
         (∀ t ∈ db.recs, t.featured = true → old.updatedAt ≤ t.updatedAt) ∧
         findT (createT inp db).recs old.id =
           some { old with featured := false, updatedAt := db.clock + 1 }) := by
  constructor
  · intro ops h
    exact (invT_runTOps ops h).2
  · intro db inp hwf hc10 hv haf
    obtain ⟨hlt', hnd⟩ := hwf
    have hlt : ∀ t ∈ db.recs, t.id < db.nextId := fun t ht =>
      hlt' t.id (List.mem_map_of_mem (·.id) ht)
    have hdocf : (preSaveT true (mkDoc inp db.nextId db.clock)).featured = true := by
      rw [preSaveT_mkDoc_featured]
      exact haf
    have hdid : (preSaveT true (mkDoc inp db.nextId db.clock)).id = db.nextId := by
      rw [preSaveT_id]
      rfl
    have hred : (createT inp db).recs =
        postSaveT (preSaveT true (mkDoc inp db.nextId db.clock))
          (db.recs ++ [preSaveT true (mkDoc inp db.nextId db.clock)]) (db.clock + 1) := by
      unfold createT
      rw [hv]
      rfl
    have hneid : ∀ t ∈ db.recs, t.id ≠ (preSaveT true (mkDoc inp db.nextId db.clock)).id := by
      intro t ht
      rw [hdid]
      exact Nat.ne_of_lt (hlt t ht)
    have hexc : countFeaturedExcept
        (db.recs ++ [preSaveT true (mkDoc inp db.nextId db.clock)])
        (preSaveT true (mkDoc inp db.nextId db.clock)).id = featuredCount db.recs :=
      countFeaturedExcept_append _ _ hneid
    have hcond : ((preSaveT true (mkDoc inp db.nextId db.clock)).featured &&
        decide (10 ≤ countFeaturedExcept
          (db.recs ++ [preSaveT true (mkDoc inp db.nextId db.clock)])
          (preSaveT true (mkDoc inp db.nextId db.clock)).id)) = true := by
      rw [hdocf, hexc, hc10]
      rfl
    have hps : (createT inp db).recs =
        unfeatureOldest (db.recs ++ [preSaveT true (mkDoc inp db.nextId db.clock)])
          (preSaveT true (mkDoc inp db.nextId db.clock)).id (db.clock + 1) := by
      rw [hred]
      unfold postSaveT
      rw [if_pos hcond]
    have hids1 : idsOf (db.recs ++ [preSaveT true (mkDoc inp db.nextId db.clock)])
        = idsOf db.recs ++ [db.nextId] := by
      unfold idsOf
      rw [List.map_append]
      simp [hdid]
    have hnotin : db.nextId ∉ idsOf db.recs := fun hmem => lt_irrefl _ (hlt' _ hmem)
    have hnd1 : (idsOf (db.recs ++ [preSaveT true (mkDoc inp db.nextId db.clock)])).Nodup := by
      rw [hids1, ← List.concat_eq_append]
      exact List.Nodup.concat hnotin hnd
    have hcnt1 : featuredCount (db.recs ++ [preSaveT true (mkDoc inp db.nextId db.clock)])
        = 11 := by
      rw [featuredCount_append, hdocf, hc10]
      rfl
    have hcand : (db.recs ++ [preSaveT true (mkDoc inp db.nextId db.clock)]).filter
        (fun t => t.featured && t.id != (preSaveT true (mkDoc inp db.nextId db.clock)).id)
        = db.recs.filter (·.featured) := by
      rw [List.filter_append]
      have h2 : [preSaveT true (mkDoc inp db.nextId db.clock)].filter
          (fun t => t.featured && t.id !=
            (preSaveT true (mkDoc inp db.nextId db.clock)).id) = [] := by
        simp
      rw [h2, List.append_nil]
      apply List.filter_congr
      intro t ht
      have hne : (t.id != (preSaveT true (mkDoc inp db.nextId db.clock)).id) = true := by
        simpa using hneid t ht
      simp [hne]
    have hlen : (db.recs.filter (·.featured)).length = 10 := by
      have := List.countP_eq_length_filter (fun t : Testimonial => t.featured) db.recs
      unfold featuredCount at hc10
      omega
    have hne10 : db.recs.filter (·.featured) ≠ [] := by
      intro hnil
      rw [hnil] at hlen
      cases hlen
    have hcount : featuredCount (createT inp db).recs = 10 := by
      rw [hps]
      have := featuredCount_unfeatureOldest
        (db.recs ++ [preSaveT true (mkDoc inp db.nextId db.clock)])
        (preSaveT true (mkDoc inp db.nextId db.clock)).id (db.clock + 1) hnd1
        (by rw [hexc]; omega)
      omega
    refine ⟨hcount, ?_, ?_⟩
    · rw [findT_createT inp db hlt hv]
      simp [hdocf]
    · have hsome := pickOldest_isSome _ hne10
      cases hpk : pickOldest (db.recs.filter (·.featured)) with
      | none => rw [hpk] at hsome; cases hsome
      | some old =>
          have hmemf := pickOldest_mem _ _ hpk
          have hmem : old ∈ db.recs := (List.mem_filter.mp hmemf).1
          have hof : old.featured = true := by
            have := (List.mem_filter.mp hmemf).2
            simpa using this
          refine ⟨old, hmem, hof, ?_, ?_⟩
          · intro t ht htf
            exact pickOldest_min _ _ hpk t (List.mem_filter.mpr ⟨ht, by simpa using htf⟩)
          · have hunf : (createT inp db).recs =
                (db.recs ++ [preSaveT true (mkDoc inp db.nextId db.clock)]).map
                  (fun t => if t.id == old.id then
                    { old with featured := false, updatedAt := db.clock + 1 } else t) := by
              rw [hps]
              unfold unfeatureOldest
              rw [hcand, hpk]
            have hpres : ∀ t : Testimonial,
                ((fun t => if t.id == old.id then
                  { old with featured := false, updatedAt := db.clock + 1 } else t) t).id
                  = t.id := by
              intro t
              dsimp only
              split
              · rename_i ht
                exact (beq_iff_eq.mp ht).symm
              · rfl
            rw [hunf, findT_map _ _ hpres]
            have hfindold : findT (db.recs ++ [preSaveT true (mkDoc inp db.nextId db.clock)])
                old.id = some old :=
              findT_of_mem_nodup _ old hnd1 (List.mem_append.mpr (Or.inl hmem))
            rw [hfindold]
            simp only [Option.map_some']
            have : (old.id == old.id) = true := beq_self_eq_true _
            simp [this]

/-- C2 amended witness: a save-path sequence stays within the cap, and a
featured creation on a full store of ten evicts down to exactly ten. -/
theorem claim2_witness :
    featuredCount (runTOps [TOp.create wInp5]).recs ≤ 10 ∧
    featuredCount (createT wInp5 tenFeaturedDB).recs = 10 := by
  constructor
  · apply claim2_featured_cap.1
    intro op hop
    rw [List.mem_singleton.mp hop]
    rfl
  · exact (claim2_featured_cap.2 tenFeaturedDB wInp5 (by constructor <;> decide)
      (by decide) (by decide) (by decide)).1
